import Mathlib

/-!
Shallow embedding of the tico-basics repository (TypeScript):

* `src/src/modules/events/index.ts` — class `EventSystem`, a typed
  publish/subscribe bus whose listeners live in a
  `Map<event, Set<handler>>`.
* `src/src/modules/logs/index.ts` — class `Logger`, a console logger
  with hierarchical context that mirrors every call onto an owned bus.

Events and handlers are identified by natural numbers.  A JavaScript
`Set` is modelled as an ordered list of entries with an `alive` flag:
`Set.prototype.delete` tombstones the entry instead of removing it, so
that iteration order and the ECMAScript live-iterator behaviour (a
deleted entry is skipped, an entry added during iteration is visited)
are reproduced exactly.  A JavaScript `Map` is an ordered association
list; `Map.set` of an existing key updates it in place.  `Set` objects
are kept in a heap (list of sets indexed by allocation order) and the
map stores heap indices, so the aliasing between the set object that
`emit` iterates and the object that `off`/`on`/`prepend` reach through
the map is modelled faithfully.
-/

namespace Tico

abbrev Event := Nat

abbrev HId := Nat

/-- One entry of a JavaScript `Set`: a handler id plus an alive flag
(`false` models an entry removed by `Set.prototype.delete`). -/
structure Entry where
  hid : HId
  alive : Bool
deriving DecidableEq, Repr

abbrev SetObj := List Entry

/-- `set.size`: the number of alive entries. -/
def setSize (s : SetObj) : Nat := (s.filter (·.alive)).length

/-- The alive elements of a set, in insertion order. -/
def setElems (s : SetObj) : List HId := (s.filter (·.alive)).map (·.hid)

/-- `set.has(h)`: is there an alive entry for `h`? -/
def setHas (s : SetObj) (h : HId) : Bool := s.any (fun en => en.alive && en.hid == h)

/-- `set.add(h)`: appends a fresh alive entry unless `h` is present. -/
def setAdd (s : SetObj) (h : HId) : SetObj :=
  if setHas s h then s else s ++ [⟨h, true⟩]

/-- `set.delete(h)`: tombstones the entry for `h` (no entry moves). -/
def setDelete (s : SetObj) (h : HId) : SetObj :=
  s.map (fun en => if en.hid == h then ⟨en.hid, false⟩ else en)

/-- `new Set(iterable)`: add the elements in order, duplicates ignored. -/
def setOfList (xs : List HId) : SetObj := xs.foldl setAdd []

/-- `map.get e` on the ordered association list (keys are unique in a
JavaScript `Map`, so first match is the match). -/
def mapGet : List (Event × Nat) → Event → Option Nat
  | [], _ => none
  | p :: rest, e => if p.1 == e then some p.2 else mapGet rest e

/-- `map.set e i`: updates an existing key in place, else appends. -/
def mapSet : List (Event × Nat) → Event → Nat → List (Event × Nat)
  | [], e, i => [(e, i)]
  | p :: rest, e, i => if p.1 == e then (e, i) :: rest else p :: mapSet rest e i

/-- `map.delete e`. -/
def mapDelete : List (Event × Nat) → Event → List (Event × Nat)
  | [], _ => []
  | p :: rest, e => if p.1 == e then mapDelete rest e else p :: mapDelete rest e

/-- `EventSystemOptions` after the constructor filled in the defaults
(lines 88–97).  `maxListeners : none` models the default `Infinity`. -/
structure EventSystemOptions where
  debug : Bool
  warnOnNoListeners : Bool
  catchErrors : Bool
  maxListeners : Option Nat
deriving DecidableEq, Repr

/-- The defaults of the constructor (line 89–95). -/
def defaultOptions : EventSystemOptions :=
  { debug := false, warnOnNoListeners := true, catchErrors := true, maxListeners := none }

/-- The state of one `EventSystem` instance together with the observable
effects of its collaborators: `sinkWarns`/`sinkErrors` count the calls
the bus makes on its injected diagnostic logger (`log.warn`, and
`log.error(0, …)`), and `counter` is an external cell that test handlers
may increment, so that handler invocation is observable. -/
structure EventSystem where
  heap : List SetObj
  listeners : List (Event × Nat)
  options : EventSystemOptions
  sinkWarns : Nat
  sinkErrors : Nat
  counter : Nat
deriving DecidableEq, Repr

/-- A freshly constructed bus (empty `Map`, injected sink untouched). -/
def EventSystem.new (opts : EventSystemOptions) : EventSystem :=
  { heap := [], listeners := [], options := opts, sinkWarns := 0, sinkErrors := 0, counter := 0 }

/-- Dereference a heap index (a `Set` object reference). -/
def heapGet (st : EventSystem) (i : Nat) : SetObj := st.heap.getD i []

/-- Overwrite the set object at heap index `i`. -/
def heapPut (st : EventSystem) (i : Nat) (s : SetObj) : EventSystem :=
  { st with heap := st.heap.set i s }

/-- `this.log.warn(…)` on the injected sink. -/
def sinkWarn (st : EventSystem) : EventSystem :=
  { st with sinkWarns := st.sinkWarns + 1 }

/-- `this.log.error(0, …)` on the injected sink (a level-0 report). -/
def sinkError (st : EventSystem) : EventSystem :=
  { st with sinkErrors := st.sinkErrors + 1 }

/-- `on` (lines 106–120): fetches or creates the event's set, warns via
the sink when `set.size >= maxListeners` (`Infinity` never compares
true), then `set.add(handler)`.  The returned unsubscriber is
`() => this.off(event, handler)` (line 119), i.e. `off e h` below. -/
def EventSystem.on (st : EventSystem) (e : Event) (h : HId) : EventSystem :=
  let (st1, i) :=
    match mapGet st.listeners e with
    | some i => (st, i)
    | none =>
        -- set = new Set(); this.listeners.set(event, set)
        ({ st with heap := st.heap ++ [[]],
                   listeners := mapSet st.listeners e st.heap.length }, st.heap.length)
  let st2 :=
    match st1.options.maxListeners with
    | some m => if m ≤ setSize (heapGet st1 i) then sinkWarn st1 else st1
    | none => st1
  heapPut st2 i (setAdd (heapGet st2 i) h)

/-- `prepend` (lines 129–141): fetches or creates the event's set (no
`maxListeners` check appears in this method), then replaces the map
entry with `new Set([handler, ...set])` — a new set object whose first
element is the handler.  The unsubscriber is again `off e h`. -/
def EventSystem.prepend (st : EventSystem) (e : Event) (h : HId) : EventSystem :=
  let (st1, i) :=
    match mapGet st.listeners e with
    | some i => (st, i)
    | none =>
        ({ st with heap := st.heap ++ [[]],
                   listeners := mapSet st.listeners e st.heap.length }, st.heap.length)
  let newSet := setOfList (h :: setElems (heapGet st1 i))
  { st1 with heap := st1.heap ++ [newSet],
             listeners := mapSet st1.listeners e st1.heap.length }

/-- `off` (lines 165–174): `set.delete(handler)`, and when the set
became empty, `this.listeners.delete(event)`. -/
def EventSystem.off (st : EventSystem) (e : Event) (h : HId) : EventSystem :=
  match mapGet st.listeners e with
  | none => st
  | some i =>
      let s' := setDelete (heapGet st i) h
      let st1 := heapPut st i s'
      if setSize s' = 0 then { st1 with listeners := mapDelete st1.listeners e } else st1

/-- `once` (lines 150–157) builds a wrapper closure and registers it
with `on` (line 156).  Handler bodies live in a behaviour map (see
`Action`), so the operation registers the chosen wrapper id; a theorem
about `once` assumes the wrapper's behaviour is
`Action.actOff e w :: body`, the wrapper body of lines 151–154
(`this.off(event, wrapper); handler(...args)`). -/
def EventSystem.once (st : EventSystem) (e : Event) (w : HId) : EventSystem :=
  st.on e w

/-- `listenerCount` (lines 234–236). -/
def EventSystem.listenerCount (st : EventSystem) (e : Event) : Nat :=
  match mapGet st.listeners e with
  | none => 0
  | some i => setSize (heapGet st i)

/-- `hasListeners` (lines 243–245). -/
def EventSystem.hasListeners (st : EventSystem) (e : Event) : Bool :=
  decide (0 < st.listenerCount e)

/-- `eventNames` (lines 250–252): the map's keys in insertion order. -/
def EventSystem.eventNames (st : EventSystem) : List Event :=
  st.listeners.map Prod.fst

/-- `setMaxListeners` (lines 259–261). -/
def EventSystem.setMaxListeners (st : EventSystem) (n : Option Nat) : EventSystem :=
  { st with options := { st.options with maxListeners := n } }

/-- `removeAllListeners` (lines 268–274).  `if (event)` is a truthiness
test; the falsy event names (`""`, `0`) take the clear-everything
branch in JavaScript, which the `Option` models by `none`. -/
def EventSystem.removeAllListeners (st : EventSystem) (e : Option Event) : EventSystem :=
  match e with
  | some e => { st with listeners := mapDelete st.listeners e }
  | none => { st with listeners := [] }

/-- The observable registry content for an event: the alive elements of
the set its map entry references (empty when there is no entry). -/
def elemsAt (st : EventSystem) (e : Event) : List HId :=
  match mapGet st.listeners e with
  | none => []
  | some i => setElems (heapGet st i)

/-- `set.has` through the map, as `on`/`off` reach the handler. -/
def EventSystem.registered (st : EventSystem) (e : Event) (h : HId) : Bool :=
  match mapGet st.listeners e with
  | none => false
  | some i => setHas (heapGet st i) h

/-!
Handler bodies.  A handler is a closure; a registered handler id is
mapped to its body by a behaviour function.  A body is a finite list of
the effects a test handler can perform on the bus it is registered on:
the three registry mutations, incrementing the external counter, and
throwing.  `throwErr` aborts the rest of the body, as a `throw` does.
-/

inductive Action where
  | actOn (e : Event) (h : HId)
  | actPrepend (e : Event) (h : HId)
  | actOff (e : Event) (h : HId)
  | incr
  | throwErr
deriving DecidableEq, Repr

abbrev Prog := List Action

abbrev Behav := HId → Prog

/-- Run a handler body: `(threw, final state)`. -/
def runProg : Prog → EventSystem → Bool × EventSystem
  | [], st => (false, st)
  | Action.actOn e h :: rest, st => runProg rest (st.on e h)
  | Action.actPrepend e h :: rest, st => runProg rest (st.prepend e h)
  | Action.actOff e h :: rest, st => runProg rest (st.off e h)
  | Action.incr :: rest, st => runProg rest { st with counter := st.counter + 1 }
  | Action.throwErr :: _, st => (true, st)

/-- The outcome of `emit`: a normal return, a propagated handler
exception, or fuel exhaustion (a model artifact standing for the
infinite loops a self-re-registering handler can cause in the source;
every theorem supplies enough fuel for it not to occur). -/
inductive EmitResult where
  | ret (b : Bool)
  | exn
  | outOfFuel
deriving DecidableEq, Repr

/-- The `for (const handler of set)` loop of `emit` (lines 195–205).
`ptr` is the position of the ECMAScript set iterator in the entry list
of the set object at heap index `i`; the entry list is re-read from the
live state at every step, a dead entry is skipped, and an entry
appended during the iteration is visited.  Each visited handler runs
under the `catchErrors` policy read before the loop (line 193): when it
throws with `catchErrors` on, `this.log.error(0, …)` reports to the
sink and the loop continues; with `catchErrors` off the exception
propagates.  Returns the invocation trace, the outcome (`ret true`
corresponds to line 207), and the final state. -/
def emitIter (behav : Behav) (catchErrors : Bool) (i : Nat) :
    Nat → Nat → EventSystem → List HId × EmitResult × EventSystem
  | 0, _, st => ([], EmitResult.outOfFuel, st)
  | fuel + 1, ptr, st =>
      match (heapGet st i)[ptr]? with
      | none => ([], EmitResult.ret true, st)
      | some en =>
          if en.alive then
            let r0 := runProg (behav en.hid) st
            if r0.1 then
              if catchErrors then
                let r := emitIter behav catchErrors i fuel (ptr + 1) (sinkError r0.2)
                (en.hid :: r.1, r.2.1, r.2.2)
              else
                ([en.hid], EmitResult.exn, r0.2)
            else
              let r := emitIter behav catchErrors i fuel (ptr + 1) r0.2
              (en.hid :: r.1, r.2.1, r.2.2)
          else emitIter behav catchErrors i fuel (ptr + 1) st

/-- `emit` (lines 183–208): when the event has no set or an empty set,
warn if `warnOnNoListeners` and return `false`; otherwise iterate the
live set object and return `true`. -/
def EventSystem.emit (behav : Behav) (fuel : Nat) (st : EventSystem) (e : Event) :
    List HId × EmitResult × EventSystem :=
  match mapGet st.listeners e with
  | none =>
      if st.options.warnOnNoListeners then ([], EmitResult.ret false, sinkWarn st)
      else ([], EmitResult.ret false, st)
  | some i =>
      if setSize (heapGet st i) = 0 then
        if st.options.warnOnNoListeners then ([], EmitResult.ret false, sinkWarn st)
        else ([], EmitResult.ret false, st)
      else
        emitIter behav st.options.catchErrors i fuel 0 st

/-- The `Promise.all([...set].map(async (handler) => handler(...args)))`
fan-out of `emitAsync` (lines 222–224): every handler of the snapshot
runs (each async closure starts synchronously), and the combined
promise rejects when any of them threw. -/
def runAllAsync (behav : Behav) : List HId → EventSystem → Bool × EventSystem
  | [], st => (false, st)
  | h :: rest, st =>
      let r0 := runProg (behav h) st
      let r := runAllAsync behav rest r0.2
      (r0.1 || r.1, r.2)

/-- `emitAsync` (lines 218–227): `false` without any handler work when
the event has no set or an empty set (and no warning — unlike `emit`);
otherwise the snapshot `[...set]` of the alive elements is fanned out,
the rejection of any handler propagates (`catchErrors` is never
consulted on this path), and otherwise the call resolves to `true`. -/
def EventSystem.emitAsync (behav : Behav) (st : EventSystem) (e : Event) :
    List HId × EmitResult × EventSystem :=
  match mapGet st.listeners e with
  | none => ([], EmitResult.ret false, st)
  | some i =>
      if setSize (heapGet st i) = 0 then ([], EmitResult.ret false, st)
      else
        let elems := setElems (heapGet st i)
        let r := runAllAsync behav elems st
        (elems, if r.1 then EmitResult.exn else EmitResult.ret true, r.2)

/-!
Logger embedding (`src/src/modules/logs/index.ts`).  The observable
output of a logger call is a list of writes: console writes (tagged by
the console method used, with the chalk colour and the rendered text)
and emissions on the logger's owned bus (tagged by the event name; the
payloads play no part in any claim and are not modelled).  Wall-clock
time enters only through `getTimestamp()`, whose result is passed to
each call as the `ts` argument.
-/

/-- The `output` parameter of `print` (`"log" | "info" | "warn" | "error"`,
line 113); the source's default when the argument is omitted is `"log"`. -/
inductive OutKind where
  | log
  | info
  | warn
  | error
deriving DecidableEq, Repr

/-- The console methods the module calls.  In Node, `console.log` and
`console.info` write to stdout; `console.warn` and `console.error`
write to stderr. -/
inductive Chan where
  | consoleLog
  | consoleInfo
  | consoleWarn
  | consoleError
deriving DecidableEq, Repr

/-- Stdout-equivalent versus stderr-equivalent console channel. -/
def Chan.isStdout : Chan → Bool
  | Chan.consoleLog => true
  | Chan.consoleInfo => true
  | Chan.consoleWarn => false
  | Chan.consoleError => false

/-- The four disjoint `if` statements of `print` (lines 139–150) route
`output` to the console method of the same name. -/
def chanOf : OutKind → Chan
  | OutKind.log => Chan.consoleLog
  | OutKind.info => Chan.consoleInfo
  | OutKind.warn => Chan.consoleWarn
  | OutKind.error => Chan.consoleError

/-- The chalk colour functions the module applies. -/
inductive Color where
  | blue
  | cyan
  | green
  | yellow
  | red
  | redBright
  | bgRed
  | magenta
  | magentaBright
  | white
deriving DecidableEq, Repr

/-- A message argument: `prim` is a non-object value (rendered by
`String(msg)`, given here as that string), `objM` an object (rendered
by `JSON.stringify(msg, null, 2)`, given here as that serialization). -/
inductive LogMsg where
  | prim (s : String)
  | objM (json : String)
deriving DecidableEq, Repr

/-- `formatMessage` (lines 96–100). -/
def formatMessage : LogMsg → String
  | LogMsg.prim s => s
  | LogMsg.objM j => j

/-- One observable effect of a logger call. -/
inductive Write where
  | console (c : Chan) (color : Color) (text : String)
  | busEmit (eventName : String)
deriving DecidableEq, Repr

/-- The state of one `Logger` instance (`timers` carries no claim and
is not modelled). -/
structure Logger where
  context : List String
  clearOnInit : Bool
  useTimestamps : Bool
  groupLevel : Nat
deriving DecidableEq, Repr

/-- `LoggerOptions` as passed by a caller (`none` = field omitted). -/
structure LoggerOptions where
  clearOnInit : Option Bool
  useTimestamps : Option Bool
deriving DecidableEq, Repr

/-- The `Logger` constructor (lines 60–74): defaults
`{ clearOnInit: true, useTimestamps: true }` overridden by the caller's
options; the context is the parent context with `name` appended when a
parent context argument is present, else `[name]` (an array is truthy
in JavaScript even when empty, so any present argument takes the first
branch); the console is cleared only when no parent context argument
was given and `clearOnInit` holds.  Returns the instance and whether
`console.clear()` ran. -/
def makeLogger (name : String) (opts : LoggerOptions)
    (parentContext : Option (List String)) : Logger × Bool :=
  let clearOnInit := opts.clearOnInit.getD true
  let useTimestamps := opts.useTimestamps.getD true
  let context :=
    match parentContext with
    | some p => p ++ [name]
    | none => [name]
  (⟨context, clearOnInit, useTimestamps, 0⟩, parentContext.isNone && clearOnInit)

/-- The string `print` assembles on its non-empty path (lines 120–137):
indentation, `[ts] ` when `useTimestamps`, the context joined by
`" | "`, the label when non-empty; one message inline, several each on
their own line. -/
def renderLine (l : Logger) (ts : String) (label : String) (messages : List LogMsg) : String :=
  let timestamp := if l.useTimestamps then "[" ++ ts ++ "] " else ""
  let contextString := String.intercalate " | " l.context
  let indent := String.join (List.replicate l.groupLevel "  ")
  let pfx := timestamp ++ "[" ++ contextString ++
    (if label ≠ "" then " | " ++ label else "") ++ "]"
  match messages with
  | [m] => indent ++ pfx ++ " " ++ formatMessage m
  | ms => ms.foldl (fun acc m => acc ++ "\n" ++ formatMessage m) (indent ++ pfx)

/-- `print` (lines 109–153).  With no messages the source calls
`this.warn(["Logger.print called without messages"])` and returns
(lines 115–118): the single argument is an *array*, so `warn` receives
one message that is an object and `formatMessage` renders it as its
`JSON.stringify(…, null, 2)` text; that `warn` is itself
`print("WARNING", chalk.yellow, [msg], "error")` followed by a `"warn"`
bus emission (lines 190–193), inlined here so that the recursion is
structurally evident.  Otherwise the rendered line is written through
the channel selected by `output` and a `"print"` bus event is emitted
(line 152). -/
def Logger.print (l : Logger) (ts : String) (label : String) (colorFn : Color)
    (messages : List LogMsg) (output : OutKind) : List Write :=
  match messages with
  | [] =>
      [Write.console Chan.consoleError Color.yellow
         (renderLine l ts "WARNING"
           [LogMsg.objM "[\n  \"Logger.print called without messages\"\n]"]),
       Write.busEmit "print", Write.busEmit "warn"]
  | _ =>
      [Write.console (chanOf output) colorFn (renderLine l ts label messages),
       Write.busEmit "print"]

/-- `log` (lines 160–163): `print("", chalk.blue, messages)` — the
`output` argument is omitted, so the default `"log"` applies — then a
`"log"` bus emission. -/
def Logger.log (l : Logger) (ts : String) (messages : List LogMsg) : List Write :=
  l.print ts "" Color.blue messages OutKind.log ++ [Write.busEmit "log"]

/-- `info` (lines 170–173): `print("INFO", chalk.cyan, messages)` with
the default `"log"` output, then an `"info"` bus emission. -/
def Logger.info (l : Logger) (ts : String) (messages : List LogMsg) : List Write :=
  l.print ts "INFO" Color.cyan messages OutKind.log ++ [Write.busEmit "info"]

/-- `success` (lines 180–183). -/
def Logger.success (l : Logger) (ts : String) (messages : List LogMsg) : List Write :=
  l.print ts "SUCCESS" Color.green messages OutKind.log ++ [Write.busEmit "success"]

/-- `warn` (lines 190–193): `print("WARNING", chalk.yellow, messages,
"error")` — the explicit `"error"` output — then a `"warn"` bus
emission. -/
def Logger.warn (l : Logger) (ts : String) (messages : List LogMsg) : List Write :=
  l.print ts "WARNING" Color.yellow messages OutKind.error ++ [Write.busEmit "warn"]

/-- `error` (lines 205–222): severity 0/1/2 selects
red/redBright/bgRed and ERROR/CRITICAL ERROR/FATAL ERROR, the output is
the explicit `"error"`, and an `"error"` bus event follows. -/
def Logger.error (l : Logger) (ts : String) (level : Fin 3) (messages : List LogMsg) :
    List Write :=
  let colorFn := if level = 0 then Color.red else if level = 1 then Color.redBright else Color.bgRed
  let label := if level = 0 then "ERROR" else if level = 1 then "CRITICAL ERROR" else "FATAL ERROR"
  l.print ts label colorFn messages OutKind.error ++ [Write.busEmit "error"]

/-- `table` (lines 264–276): with no data (`!data` — the JavaScript
falsy values take this branch, which `none` models), `warn("No data
provided to table()")`; otherwise the data is formatted like
`formatMessage` does and printed under `"TABLE"` in white with the
`output` argument omitted, so the default `"log"` applies.  The
`properties` rest parameter is unused by the source. -/
def Logger.table (l : Logger) (ts : String) (data : Option LogMsg) : List Write :=
  match data with
  | none => l.warn ts [LogMsg.prim "No data provided to table()"]
  | some d => l.print ts "TABLE" Color.white [LogMsg.prim (formatMessage d)] OutKind.log

/-- `child` (lines 285–294): a new `Logger` built from the child name,
this logger's options with `clearOnInit` forced to `false`, and this
logger's context as the parent context. -/
def Logger.child (l : Logger) (name : String) : Logger × Bool :=
  makeLogger name ⟨some false, some l.useTimestamps⟩ (some l.context)

/-- The console channels of a write list, in order. -/
def consoleChans (ws : List Write) : List Chan :=
  ws.filterMap (fun w => match w with | Write.console c _ _ => some c | _ => none)

/-!
Concrete handler behaviours used by counterexamples and witnesses.
-/

/-- Handler 1 removes its co-registered handler 2 of event 0 mid-emission;
handler 2 would increment the counter.  Handler 6 registers the fresh
handler 7 on its own event 5 mid-emission; handler 7 increments. -/
def behavC1 : Behav := fun h =>
  if h = 1 then [Action.actOff 0 2]
  else if h = 2 then [Action.incr]
  else if h = 6 then [Action.actOn 5 7]
  else if h = 7 then [Action.incr]
  else []

/-- Witness behaviour: handler 1 removes handler 2 of event 0. -/
def behavW1 : Behav := fun h => if h = 1 then [Action.actOff 0 2] else []

/-- Witness behaviour: handler 1 adds handler 3 to event 0; 3 increments. -/
def behavW2 : Behav := fun h =>
  if h = 1 then [Action.actOn 0 3] else if h = 3 then [Action.incr] else []

/-- A handler body that performs no registry mutation (it may increment
the external counter or throw). -/
def progPure (p : Prog) : Bool :=
  p.all (fun a =>
    match a with
    | Action.incr => true
    | Action.throwErr => true
    | _ => false)

/-- A handler body that performs no registry mutation and never throws
(only counter increments). -/
def progSilent (p : Prog) : Bool := p.all (fun a => a == Action.incr)

/-- Whether running the body throws: no action but `throwErr` throws,
and execution stops at the first `throwErr`, so this is membership. -/
def progThrows (p : Prog) : Bool := p.any (fun a => a == Action.throwErr)

/-- The alive elements at or after iterator position `ptr`. -/
def aliveFrom (s : SetObj) (ptr : Nat) : List HId :=
  ((s.drop ptr).filter (·.alive)).map (·.hid)

/-- The trace of a no-`catchErrors` emission over a static handler
list: every handler up to and including the first throwing one. -/
def ncTrace (behav : Behav) : List HId → List HId
  | [] => []
  | h :: rest => if progThrows (behav h) then [h] else h :: ncTrace behav rest

/-- Repeated synchronous emission of one event (the state after `n`
further `emit` calls). -/
def emitTimes (behav : Behav) (fuel : Nat) (e : Event) : Nat → EventSystem → EventSystem
  | 0, st => st
  | n + 1, st => emitTimes behav fuel e n (EventSystem.emit behav fuel st e).2.2

/-- Witness behaviour for handler isolation: handler 3 throws,
handler 2 increments the counter, handler 4 also throws. -/
def behavC2 : Behav := fun h =>
  if h = 3 then [Action.throwErr]
  else if h = 2 then [Action.incr]
  else if h = 4 then [Action.throwErr]
  else []

/-- A bus with `catchErrors` on and two handlers for event 9: handler 3
(which throws) first, handler 2 (which increments) second. -/
def stC2a : EventSystem := ((EventSystem.new defaultOptions).on 9 3).on 9 2

/-- The same two registrations on a bus with `catchErrors` off. -/
def stC2b : EventSystem :=
  ((EventSystem.new { defaultOptions with catchErrors := false }).on 9 3).on 9 2

/-- Behaviour for the `once` scenario: handler 1 is a plain handler
that increments; handler 2 is the wrapper `once(0, …)` builds, whose
body is `off(0, 2)` followed by the underlying handler's body
(`incr`). -/
def behavC5 : Behav := fun h =>
  if h = 1 then [Action.incr]
  else if h = 2 then [Action.actOff 0 2, Action.incr]
  else []

/-- The everywhere-silent behaviour: every handler just increments. -/
def behavIncr : Behav := fun _ => [Action.incr]

/-- A registration step for one fixed event: plain `on` or `prepend`. -/
inductive Reg where
  | addOn (h : HId)
  | addPre (h : HId)
deriving DecidableEq, Repr

/-- The handler id a registration step registers. -/
def Reg.hid : Reg → HId
  | Reg.addOn h => h
  | Reg.addPre h => h

/-- The handler ids of a registration sequence. -/
def regIds (rs : List Reg) : List HId := rs.map Reg.hid

/-- Apply a registration sequence for event `e`, in order. -/
def applyRegs (e : Event) : List Reg → EventSystem → EventSystem
  | [], st => st
  | Reg.addOn h :: rest, st => applyRegs e rest (st.on e h)
  | Reg.addPre h :: rest, st => applyRegs e rest (st.prepend e h)

/-- The invocation order a registration sequence produces: `on`
appends to the current order, `prepend` puts the handler first. -/
def regOrderAux : List Reg → List HId → List HId
  | [], acc => acc
  | Reg.addOn h :: rest, acc => regOrderAux rest (acc ++ [h])
  | Reg.addPre h :: rest, acc => regOrderAux rest (h :: acc)

def regOrder (rs : List Reg) : List HId := regOrderAux rs []

/-- One public registry operation of the bus, as named by the claim on
registry pruning: `on`, `prepend`, `once` (which registers its wrapper
through `on`), `off`, `removeAllListeners` and `emit`. -/
inductive BusOp where
  | opOn (e : Event) (h : HId)
  | opPrepend (e : Event) (h : HId)
  | opOnce (e : Event) (w : HId)
  | opOff (e : Event) (h : HId)
  | opRemoveAll (e : Option Event)
  | opEmit (e : Event)
deriving DecidableEq, Repr

/-- Run one operation (the return values are discarded). -/
def applyOp (behav : Behav) (fuel : Nat) : BusOp → EventSystem → EventSystem
  | BusOp.opOn e h, st => st.on e h
  | BusOp.opPrepend e h, st => st.prepend e h
  | BusOp.opOnce e w, st => st.once e w
  | BusOp.opOff e h, st => st.off e h
  | BusOp.opRemoveAll e, st => st.removeAllListeners e
  | BusOp.opEmit e, st => (EventSystem.emit behav fuel st e).2.2

/-- Run a sequence of operations, in order. -/
def applyOps (behav : Behav) (fuel : Nat) : List BusOp → EventSystem → EventSystem
  | [], st => st
  | op :: rest, st => applyOps behav fuel rest (applyOp behav fuel op st)

/-- During a mutation-free registration sequence for `e`, the bus keeps
one set for `e` whose entries are exactly the accumulated handlers, all
alive, in the current order. -/
def RegState (st : EventSystem) (e : Event) (acc : List HId) : Prop :=
  ∃ i, mapGet st.listeners e = some i ∧ i < st.heap.length
    ∧ heapGet st i = acc.map (fun h => Entry.mk h true)

/-- The structural well-formedness of a bus state: every map entry
references a set that lives in the heap and still has at least one
alive element, no event name appears twice in the map, and no two map
entries alias one set object.  Every state reachable from a fresh bus
satisfies it. -/
def ESInv (st : EventSystem) : Prop :=
  (∀ p ∈ st.listeners, 0 < setSize (heapGet st p.2) ∧ p.2 < st.heap.length)
  ∧ (st.listeners.map Prod.fst).Nodup
  ∧ (st.listeners.map Prod.snd).Nodup

instance (st : EventSystem) : Decidable (ESInv st) := by
  unfold ESInv; infer_instance

/-!
Helper lemmas.
-/

theorem set_append_singleton {α : Type} (l : List α) (x y : α) :
    (l ++ [x]).set l.length y = l ++ [y] := by
  induction l with
  | nil => rfl
  | cons a as ih => simp [List.set, ih]

/-- `on` when the event already has a set: the set gains the handler in
place; only `sinkWarns` may additionally change (the soft-cap branch). -/
theorem on_some_shape (st : EventSystem) (e : Event) (h : HId) (i : Nat)
    (hmap : mapGet st.listeners e = some i) :
    ∃ w, st.on e h =
      { st with heap := st.heap.set i (setAdd (heapGet st i) h), sinkWarns := w } := by
  simp only [EventSystem.on, hmap]
  split
  · split
    · exact ⟨st.sinkWarns + 1, by simp [sinkWarn, heapPut, heapGet]⟩
    · exact ⟨st.sinkWarns, by simp [heapPut, heapGet]⟩
  · exact ⟨st.sinkWarns, by simp [heapPut, heapGet]⟩

/-- `on` when the event has no set yet: a fresh one-element set is
allocated and the map gains the event at the end; only `sinkWarns` may
additionally change. -/
theorem on_none_shape (st : EventSystem) (e : Event) (h : HId)
    (hmap : mapGet st.listeners e = none) :
    ∃ w, st.on e h =
      { st with heap := st.heap ++ [[⟨h, true⟩]],
                listeners := mapSet st.listeners e st.heap.length, sinkWarns := w } := by
  simp only [EventSystem.on, hmap]
  split
  · split
    · exact ⟨st.sinkWarns + 1,
        by simp [sinkWarn, heapPut, heapGet, setAdd, setHas, set_append_singleton]⟩
    · exact ⟨st.sinkWarns,
        by simp [heapPut, heapGet, setAdd, setHas, set_append_singleton]⟩
  · exact ⟨st.sinkWarns,
      by simp [heapPut, heapGet, setAdd, setHas, set_append_singleton]⟩

/-- `prepend` when the event already has a set: a new set object with
the handler first is allocated and the map entry repointed; nothing
else changes (in particular no soft-cap warning). -/
theorem prepend_some_shape (st : EventSystem) (e : Event) (h : HId) (i : Nat)
    (hmap : mapGet st.listeners e = some i) :
    st.prepend e h =
      { st with heap := st.heap ++ [setOfList (h :: setElems (heapGet st i))],
                listeners := mapSet st.listeners e st.heap.length } := by
  unfold EventSystem.prepend
  rw [hmap]

/-- `prepend` when the event has no set yet: the intermediate empty set
and then the real one are allocated; the map ends at the latter. -/
theorem prepend_none_shape (st : EventSystem) (e : Event) (h : HId)
    (hmap : mapGet st.listeners e = none) :
    st.prepend e h =
      { st with heap := (st.heap ++ [[]]) ++ [setOfList [h]],
                listeners := mapSet (mapSet st.listeners e st.heap.length) e
                  (st.heap.length + 1) } := by
  unfold EventSystem.prepend
  rw [hmap]
  simp [heapGet, setElems]

/-- `emit` reduces to the iteration when the event has a non-empty set. -/
theorem emit_some (behav : Behav) (fuel : Nat) (st : EventSystem) (e : Event) (i : Nat)
    (hmap : mapGet st.listeners e = some i) (hsz : setSize (heapGet st i) ≠ 0) :
    EventSystem.emit behav fuel st e = emitIter behav st.options.catchErrors i fuel 0 st := by
  simp [EventSystem.emit, hmap, hsz]

/-- Iteration step: past the last entry, the loop returns `true`. -/
theorem emitIter_done (behav : Behav) (ce : Bool) (i fuel ptr : Nat) (st : EventSystem)
    (hget : (heapGet st i)[ptr]? = none) :
    emitIter behav ce i (fuel + 1) ptr st = ([], EmitResult.ret true, st) := by
  simp [emitIter, hget]

/-- Iteration step: a dead (deleted) entry is skipped. -/
theorem emitIter_dead (behav : Behav) (ce : Bool) (i fuel ptr : Nat) (st : EventSystem)
    (en : Entry) (hget : (heapGet st i)[ptr]? = some en) (hdead : en.alive = false) :
    emitIter behav ce i (fuel + 1) ptr st = emitIter behav ce i fuel (ptr + 1) st := by
  simp [emitIter, hget, hdead]

/-- Iteration step: an alive entry whose handler returns normally. -/
theorem emitIter_alive (behav : Behav) (ce : Bool) (i fuel ptr : Nat) (st st' : EventSystem)
    (en : Entry) (hget : (heapGet st i)[ptr]? = some en) (halive : en.alive = true)
    (hrun : runProg (behav en.hid) st = (false, st')) :
    emitIter behav ce i (fuel + 1) ptr st =
      ((en.hid :: (emitIter behav ce i fuel (ptr + 1) st').1,
        (emitIter behav ce i fuel (ptr + 1) st').2.1,
        (emitIter behav ce i fuel (ptr + 1) st').2.2)) := by
  simp [emitIter, hget, halive, hrun]

/-- Iteration step: an alive entry whose handler throws, with
`catchErrors` on — the sink gets one level-0 report, the loop goes on. -/
theorem emitIter_throw_catch (behav : Behav) (i fuel ptr : Nat) (st st' : EventSystem)
    (en : Entry) (hget : (heapGet st i)[ptr]? = some en) (halive : en.alive = true)
    (hrun : runProg (behav en.hid) st = (true, st')) :
    emitIter behav true i (fuel + 1) ptr st =
      ((en.hid :: (emitIter behav true i fuel (ptr + 1) (sinkError st')).1,
        (emitIter behav true i fuel (ptr + 1) (sinkError st')).2.1,
        (emitIter behav true i fuel (ptr + 1) (sinkError st')).2.2)) := by
  simp [emitIter, hget, halive, hrun]

/-- Iteration step: an alive entry whose handler throws, with
`catchErrors` off — the exception propagates and the loop aborts. -/
theorem emitIter_throw_nocatch (behav : Behav) (i fuel ptr : Nat) (st st' : EventSystem)
    (en : Entry) (hget : (heapGet st i)[ptr]? = some en) (halive : en.alive = true)
    (hrun : runProg (behav en.hid) st = (true, st')) :
    emitIter behav false i (fuel + 1) ptr st = ([en.hid], EmitResult.exn, st') := by
  simp [emitIter, hget, halive, hrun]

/-!
Claim C1.
-/

/-- C1, counterexample.  The claim asserts snapshot-at-call-time
semantics for `emit`.  On the code, with handlers 1 and 2 registered
for event 0 and handler 1 calling `off(0, 2)` mid-emission, the
emission trace is `[1]`: handler 2 was registered when `emit` was
called but is not invoked — `emit` iterates the live set.  Dually,
with handler 6 registered for event 5 and handler 6 calling
`on(5, 7)` mid-emission, the trace is `[6, 7]`: handler 7, added
during the emission, is invoked in it. -/
theorem C1_counterexample :
    ((EventSystem.emit behavC1 10 (((EventSystem.new defaultOptions).on 0 1).on 0 2) 0).1 = [1]
      ∧ 2 ∈ elemsAt (((EventSystem.new defaultOptions).on 0 1).on 0 2) 0
      ∧ 2 ∉ (EventSystem.emit behavC1 10 (((EventSystem.new defaultOptions).on 0 1).on 0 2) 0).1)
    ∧ ((EventSystem.emit behavC1 10 ((EventSystem.new defaultOptions).on 5 6) 5).1 = [6, 7]
      ∧ 7 ∉ elemsAt ((EventSystem.new defaultOptions).on 5 6) 5) := by decide

/-- C1, amended: `emit` iterates the live handler set rather than a
snapshot.  For any event, options and distinct handler ids: a handler
that removes (via `off`) a not-yet-visited co-registered handler of the
same event during the emission prevents that handler from being invoked
in the current emission (trace `[a]`); and a handler that registers a
fresh handler via `on` on the same event during the emission causes the
new handler to be invoked in that same emission (trace `[a, c]`). -/
theorem C1_amended_live_iteration
    (e : Event) (a b c : HId) (opts : EventSystemOptions)
    (behavOff behavAdd : Behav) (k : Nat)
    (hab : a ≠ b) (hca : c ≠ a)
    (hOff : behavOff a = [Action.actOff e b])
    (hAdd : behavAdd a = [Action.actOn e c])
    (hAddC : behavAdd c = [Action.incr]) :
    (EventSystem.emit behavOff (k + 3) (((EventSystem.new opts).on e a).on e b) e).1 = [a]
    ∧ (EventSystem.emit behavAdd (k + 3) ((EventSystem.new opts).on e a) e).1 = [a, c] := by
  obtain ⟨w1, hw1⟩ := on_none_shape (EventSystem.new opts) e a (by simp [EventSystem.new, mapGet])
  have hw1' : (EventSystem.new opts).on e a =
      { heap := [[⟨a, true⟩]], listeners := [(e, 0)], options := opts,
        sinkWarns := w1, sinkErrors := 0, counter := 0 } := by
    rw [hw1]; simp [EventSystem.new, mapSet]
  constructor
  · -- off during emission: the removed handler is skipped
    obtain ⟨w2, hw2⟩ := on_some_shape ((EventSystem.new opts).on e a) e b 0
      (by rw [hw1']; simp [mapGet])
    rw [hw1'] at hw2
    have hw2' : ((EventSystem.new opts).on e a).on e b =
        { heap := [[⟨a, true⟩, ⟨b, true⟩]], listeners := [(e, 0)], options := opts,
          sinkWarns := w2, sinkErrors := 0, counter := 0 } := by
      rw [hw1', hw2]
      simp [heapGet, setAdd, setHas, hab]
    rw [hw2']
    rw [emit_some _ _ _ _ 0 (by simp [mapGet]) (by simp [heapGet, setSize])]
    have hoff : runProg (behavOff a)
        { heap := [[⟨a, true⟩, ⟨b, true⟩]], listeners := [(e, 0)], options := opts,
          sinkWarns := w2, sinkErrors := 0, counter := 0 } =
        (false,
          { heap := [[⟨a, true⟩, ⟨b, false⟩]], listeners := [(e, 0)], options := opts,
            sinkWarns := w2, sinkErrors := 0, counter := 0 }) := by
      rw [hOff]
      show (false, EventSystem.off _ e b) = _
      simp [EventSystem.off, mapGet, heapGet, heapPut, setDelete, setSize, hab, Ne.symm hab]
    rw [show k + 3 = (k + 2) + 1 from rfl,
      emitIter_alive _ _ _ _ _ _ _ ⟨a, true⟩ (by simp [heapGet]) rfl hoff]
    rw [show k + 2 = (k + 1) + 1 from rfl,
      emitIter_dead _ _ _ _ _ _ ⟨b, false⟩ (by simp [heapGet]) rfl]
    rw [show k + 1 = k + 1 from rfl, emitIter_done _ _ _ _ _ _ (by simp [heapGet])]
  · -- on during emission: the added handler is visited
    rw [hw1']
    rw [emit_some _ _ _ _ 0 (by simp [mapGet]) (by simp [heapGet, setSize])]
    obtain ⟨w3, hw3⟩ := on_some_shape
      { heap := [[⟨a, true⟩]], listeners := [(e, 0)], options := opts,
        sinkWarns := w1, sinkErrors := 0, counter := 0 } e c 0 (by simp [mapGet])
    have hadd : runProg (behavAdd a)
        { heap := [[⟨a, true⟩]], listeners := [(e, 0)], options := opts,
          sinkWarns := w1, sinkErrors := 0, counter := 0 } =
        (false,
          { heap := [[⟨a, true⟩, ⟨c, true⟩]], listeners := [(e, 0)], options := opts,
            sinkWarns := w3, sinkErrors := 0, counter := 0 }) := by
      rw [hAdd]
      show (false, EventSystem.on _ e c) = _
      rw [hw3]
      simp [heapGet, setAdd, setHas, hca, Ne.symm hca]
    rw [show k + 3 = (k + 2) + 1 from rfl,
      emitIter_alive _ _ _ _ _ _ _ ⟨a, true⟩ (by simp [heapGet]) rfl hadd]
    have hrunc : runProg (behavAdd c)
        { heap := [[⟨a, true⟩, ⟨c, true⟩]], listeners := [(e, 0)], options := opts,
          sinkWarns := w3, sinkErrors := 0, counter := 0 } =
        (false,
          { heap := [[⟨a, true⟩, ⟨c, true⟩]], listeners := [(e, 0)], options := opts,
            sinkWarns := w3, sinkErrors := 0, counter := 1 }) := by
      rw [hAddC]; rfl
    rw [show k + 2 = (k + 1) + 1 from rfl,
      emitIter_alive _ _ _ _ _ _ _ ⟨c, true⟩ (by simp [heapGet]) rfl hrunc]
    rw [emitIter_done _ _ _ _ _ _ (by simp [heapGet])]

/-- C1 witness: the amended live-iteration theorem at event 0,
handlers 1/2/3, the default options and fuel 3. -/
theorem C1_amended_witness :
    (EventSystem.emit behavW1 3 (((EventSystem.new defaultOptions).on 0 1).on 0 2) 0).1 = [1]
    ∧ (EventSystem.emit behavW2 3 ((EventSystem.new defaultOptions).on 0 1) 0).1 = [1, 3] :=
  C1_amended_live_iteration 0 1 2 3 defaultOptions behavW1 behavW2 0
    (by decide) (by decide) (by decide) (by decide) (by decide)

/-!
Claim C3.
-/

theorem heapGet_heapPut (st : EventSystem) (i : Nat) (s : SetObj)
    (hlt : i < st.heap.length) : heapGet (heapPut st i s) i = s := by
  simp [heapGet, heapPut, List.getD_eq_getElem?_getD, List.getElem?_set_eq_of_lt _ hlt]

theorem heapGet_heapPut_ne (st : EventSystem) (i j : Nat) (s : SetObj)
    (hne : j ≠ i) : heapGet (heapPut st i s) j = heapGet st j := by
  simp [heapGet, heapPut, List.getD_eq_getElem?_getD, List.getElem?_set_ne (Ne.symm hne)]

theorem mapGet_mapSet_self (m : List (Event × Nat)) (e : Event) (j : Nat) :
    mapGet (mapSet m e j) e = some j := by
  induction m with
  | nil => simp [mapSet, mapGet]
  | cons p rest ih =>
      by_cases hpe : p.1 = e
      · simp [mapSet, mapGet, hpe]
      · simp [mapSet, mapGet, hpe, ih]

theorem getD_append_length (l : List SetObj) (s : SetObj) :
    (l ++ [s]).getD l.length [] = s := by
  simp [List.getD_eq_getElem?_getD]

theorem setHas_setAdd_self (s : SetObj) (h : HId) : setHas (setAdd s h) h = true := by
  by_cases hh : setHas s h = true
  · simp [setAdd, hh]
  · simp only [setAdd, hh]
    simp [setHas]

theorem setHas_setAdd_mono (s : SetObj) (x h : HId) (hh : setHas s h = true) :
    setHas (setAdd s x) h = true := by
  by_cases hx : setHas s x = true
  · simp [setAdd, hx, hh]
  · simp only [setAdd, hx, if_neg]
    simp only [setHas, List.any_append] at hh ⊢
    simp [hh]

theorem setHas_foldl_setAdd (h : HId) :
    ∀ (xs : List HId) (s : SetObj), setHas s h = true → setHas (xs.foldl setAdd s) h = true := by
  intro xs
  induction xs with
  | nil => intro s hs; simpa using hs
  | cons x rest ih => intro s hs; exact ih (setAdd s x) (setHas_setAdd_mono s x h hs)

theorem setHas_setOfList_head (h : HId) (xs : List HId) :
    setHas (setOfList (h :: xs)) h = true := by
  have : setOfList (h :: xs) = xs.foldl setAdd (setAdd [] h) := rfl
  rw [this]
  exact setHas_foldl_setAdd h xs (setAdd [] h) (setHas_setAdd_self [] h)

/-- C3, counterexample.  On a bus with `maxListeners := 1` and one
handler registered for event 0, a further `on` logs a soft-cap warning
through the sink, but a further `prepend` logs none — `prepend` has no
`maxListeners` check — while both register the handler (count 2). -/
theorem C3_counterexample :
    ((((EventSystem.new
          { debug := false, warnOnNoListeners := true, catchErrors := true,
            maxListeners := some 1 }).on 0 1).prepend 0 2).sinkWarns = 0
      ∧ (((EventSystem.new
          { debug := false, warnOnNoListeners := true, catchErrors := true,
            maxListeners := some 1 }).on 0 1).prepend 0 2).listenerCount 0 = 2)
    ∧ ((((EventSystem.new
          { debug := false, warnOnNoListeners := true, catchErrors := true,
            maxListeners := some 1 }).on 0 1).on 0 2).sinkWarns = 1
      ∧ (((EventSystem.new
          { debug := false, warnOnNoListeners := true, catchErrors := true,
            maxListeners := some 1 }).on 0 1).on 0 2).listenerCount 0 = 2) := by decide

/-- C3, amended: at or above the `maxListeners` soft cap, `on` logs a
warning via the diagnostic sink and still registers the handler, while
`prepend` performs no listener-cap check at all — it registers the
handler without logging anything.  (`i < st.heap.length` states that
the map entry references a set object that lives in the heap, which
holds in every reachable state.) -/
theorem C3_amended_softcap (st : EventSystem) (e : Event) (h : HId) (i m : Nat)
    (hmap : mapGet st.listeners e = some i)
    (hvalid : i < st.heap.length)
    (hmax : st.options.maxListeners = some m)
    (hge : m ≤ setSize (heapGet st i)) :
    ((st.on e h).sinkWarns = st.sinkWarns + 1 ∧ (st.on e h).registered e h = true)
    ∧ ((st.prepend e h).sinkWarns = st.sinkWarns
      ∧ (st.prepend e h).registered e h = true) := by
  have hon : st.on e h = heapPut (sinkWarn st) i (setAdd (heapGet st i) h) := by
    simp only [EventSystem.on, hmap, hmax, hge, if_true, sinkWarn]
    simp [heapGet]
  have hpre := prepend_some_shape st e h i hmap
  refine ⟨⟨?_, ?_⟩, ?_, ?_⟩
  · rw [hon]; rfl
  · rw [hon]
    have hmap' : mapGet (heapPut (sinkWarn st) i (setAdd (heapGet st i) h)).listeners e
        = some i := hmap
    simp only [EventSystem.registered, hmap']
    have hhg : heapGet (heapPut (sinkWarn st) i (setAdd (heapGet st i) h)) i
        = setAdd (heapGet st i) h := heapGet_heapPut (sinkWarn st) i _ hvalid
    rw [hhg]
    exact setHas_setAdd_self (heapGet st i) h
  · rw [hpre]
  · rw [hpre]
    simp only [EventSystem.registered, mapGet_mapSet_self, heapGet]
    rw [getD_append_length]
    exact setHas_setOfList_head h (setElems (heapGet st i))

/-- C3 witness: the amended soft-cap theorem on the counterexample's
bus (event 0, handler 2, cap 1 reached). -/
theorem C3_amended_witness :
    ((((EventSystem.new
        { debug := false, warnOnNoListeners := true, catchErrors := true,
          maxListeners := some 1 }).on 0 1).on 0 2).sinkWarns
      = ((EventSystem.new
        { debug := false, warnOnNoListeners := true, catchErrors := true,
          maxListeners := some 1 }).on 0 1).sinkWarns + 1
      ∧ (((EventSystem.new
        { debug := false, warnOnNoListeners := true, catchErrors := true,
          maxListeners := some 1 }).on 0 1).on 0 2).registered 0 2 = true)
    ∧ ((((EventSystem.new
        { debug := false, warnOnNoListeners := true, catchErrors := true,
          maxListeners := some 1 }).on 0 1).prepend 0 2).sinkWarns
      = ((EventSystem.new
        { debug := false, warnOnNoListeners := true, catchErrors := true,
          maxListeners := some 1 }).on 0 1).sinkWarns
      ∧ (((EventSystem.new
        { debug := false, warnOnNoListeners := true, catchErrors := true,
          maxListeners := some 1 }).on 0 1).prepend 0 2).registered 0 2 = true) :=
  C3_amended_softcap _ 0 2 0 1 (by decide) (by decide) (by decide) (by decide)

/-!
Claims C4 and C9.
-/

/-- C4, counterexample.  The claim routes `table` to the
stderr-equivalent channel.  On the code, `table` calls `print` with the
`output` argument omitted, so the default `"log"` applies and the
rendered table goes to `console.log` — the stdout-equivalent channel. -/
theorem C4_counterexample :
    consoleChans (Logger.table ⟨["App"], true, true, 0⟩ "12:00:00" (some (LogMsg.prim "x")))
      = [Chan.consoleLog]
    ∧ Chan.isStdout Chan.consoleLog = true := by decide

/-- C4, amended: `log`, `info`, `success` and `table` write through
`console.log` (stdout-equivalent) — `info` and `success` also use the
omitted-`output` default `"log"` — while `warn` and `error` write
through `console.error` (stderr-equivalent). -/
theorem C4_amended_channels (l : Logger) (ts : String) (m : LogMsg) (rest : List LogMsg)
    (level : Fin 3) (d : LogMsg) :
    consoleChans (l.log ts (m :: rest)) = [Chan.consoleLog]
    ∧ consoleChans (l.info ts (m :: rest)) = [Chan.consoleLog]
    ∧ consoleChans (l.success ts (m :: rest)) = [Chan.consoleLog]
    ∧ consoleChans (l.table ts (some d)) = [Chan.consoleLog]
    ∧ consoleChans (l.warn ts (m :: rest)) = [Chan.consoleError]
    ∧ consoleChans (l.error ts level (m :: rest)) = [Chan.consoleError]
    ∧ Chan.isStdout Chan.consoleLog = true
    ∧ Chan.isStdout Chan.consoleError = false := by
  refine ⟨?_, ?_, ?_, ?_, ?_, ?_, rfl, rfl⟩ <;>
    simp [Logger.log, Logger.info, Logger.success, Logger.warn, Logger.error, Logger.table,
      Logger.print, consoleChans, chanOf, Chan.isStdout]

/-- C9: a child logger's context is the parent's context with exactly
the one name appended (chaining one segment at a time), constructing
through `child` never clears the console, any construction with a
parent-context argument never clears, and a root construction (no
parent context) clears exactly when its `clearOnInit` (default `true`)
holds. -/
theorem C9_child_context (l : Logger) (n n' : String) (name : String)
    (opts : LoggerOptions) (p : List String) :
    ((l.child n).1.context = l.context ++ [n] ∧ (l.child n).2 = false)
    ∧ ((l.child n).1.child n').1.context = l.context ++ [n, n']
    ∧ (makeLogger name opts (some p)).2 = false
    ∧ (makeLogger name opts none).2 = opts.clearOnInit.getD true := by
  refine ⟨⟨?_, rfl⟩, ?_, rfl, by simp [makeLogger]⟩ <;> simp [Logger.child, makeLogger]

/-!
Claim C10.
-/

theorem mapGet_mem (m : List (Event × Nat)) (e : Event) (i : Nat)
    (hm : mapGet m e = some i) : (e, i) ∈ m := by
  induction m with
  | nil => simp [mapGet] at hm
  | cons p rest ih =>
      obtain ⟨a, b⟩ := p
      by_cases hpe : a = e
      · subst hpe
        simp only [mapGet, beq_self_eq_true, if_true, Option.some_inj] at hm
        subst hm
        exact List.mem_cons_self _ _
      · simp only [mapGet, beq_iff_eq, hpe, if_false] at hm
        exact List.mem_cons_of_mem _ (ih hm)

theorem mapGet_mapDelete_self (m : List (Event × Nat)) (e : Event) :
    mapGet (mapDelete m e) e = none := by
  induction m with
  | nil => rfl
  | cons p rest ih =>
      by_cases hpe : p.1 = e
      · simp [mapDelete, hpe, ih]
      · simp [mapDelete, mapGet, hpe, ih]

theorem mapGet_mapDelete_ne (m : List (Event × Nat)) (e e' : Event) (hne : e' ≠ e) :
    mapGet (mapDelete m e) e' = mapGet m e' := by
  induction m with
  | nil => rfl
  | cons p rest ih =>
      by_cases hpe : p.1 = e
      · have : ¬ p.1 = e' := by rw [hpe]; exact fun hc => hne hc.symm
        simp [mapDelete, mapGet, hpe, this, ih, Ne.symm hne]
      · by_cases hpe' : p.1 = e'
        · simp [mapDelete, mapGet, hpe, hpe', hne, ih]
        · simp [mapDelete, mapGet, hpe, hpe', ih]

theorem mem_map_fst_mapDelete (m : List (Event × Nat)) (e e' : Event) (hne : e' ≠ e) :
    e' ∈ (mapDelete m e).map Prod.fst ↔ e' ∈ m.map Prod.fst := by
  induction m with
  | nil => rfl
  | cons p rest ih =>
      by_cases hpe : p.1 = e
      · have : ¬ e' = p.1 := by rw [hpe]; exact hne
        simp [mapDelete, hpe, ih, this, hne]
      · simp [mapDelete, hpe, ih]

theorem setElems_setDelete (s : SetObj) (h : HId) :
    setElems (setDelete s h) = (setElems s).filter (fun x => x != h) := by
  induction s with
  | nil => rfl
  | cons en rest ih =>
      obtain ⟨x, al⟩ := en
      by_cases heq : x = h
      · subst heq
        cases al <;>
          simpa [setDelete, setElems, List.filter_cons] using ih
      · cases al <;>
          simpa [setDelete, setElems, List.filter_cons, heq, bne_iff_ne] using ih

theorem setDelete_idem (s : SetObj) (h : HId) :
    setDelete (setDelete s h) h = setDelete s h := by
  unfold setDelete
  rw [List.map_map]
  apply List.map_congr_left
  intro en _
  by_cases heq : en.hid = h <;> simp [Function.comp, heq]

theorem setElems_nil_of_setSize_zero (s : SetObj) (hz : setSize s = 0) :
    setElems s = [] := by
  simp only [setSize, List.length_eq_zero] at hz
  simp [setElems, hz]

/-- Distinct map entries never alias one heap slot when the aliasing
part of `ESInv` holds. -/
theorem index_ne_of_inv (st : EventSystem) (e e' : Event) (i j : Nat)
    (hinv : ESInv st) (hi : mapGet st.listeners e = some i)
    (hj : mapGet st.listeners e' = some j) (hne : e' ≠ e) : j ≠ i := by
  intro hji
  have h1 : (e, i) ∈ st.listeners := mapGet_mem _ _ _ hi
  have h2 : (e', j) ∈ st.listeners := mapGet_mem _ _ _ hj
  have hinj := List.inj_on_of_nodup_map hinv.2.2
  have heq2 := hinj h1 h2 hji.symm
  exact hne (congrArg Prod.fst heq2).symm

/-- C10: the unsubscriber returned by `on` and `prepend` is
`() => off(event, handler)`; `off` is idempotent (a second call, or a
call after the handler was already removed, changes nothing), removes
exactly that handler from that event's list, and touches no other
event's handler list or registry entry. -/
theorem C10_unsubscribe_idempotent_precise (st : EventSystem) (e : Event) (h : HId)
    (hinv : ESInv st) :
    ((st.off e h).off e h = st.off e h)
    ∧ (elemsAt (st.off e h) e = (elemsAt st e).filter (fun x => x != h))
    ∧ (∀ e', e' ≠ e → elemsAt (st.off e h) e' = elemsAt st e')
    ∧ (∀ e', e' ≠ e → (e' ∈ (st.off e h).eventNames ↔ e' ∈ st.eventNames)) := by
  cases hm : mapGet st.listeners e with
  | none =>
      have hoff : st.off e h = st := by simp [EventSystem.off, hm]
      refine ⟨by rw [hoff, hoff], ?_, ?_, ?_⟩
      · rw [hoff]
        simp [elemsAt, hm]
      · intro e' _; rw [hoff]
      · intro e' _; rw [hoff]
  | some i =>
      obtain ⟨hsz, hlen⟩ := hinv.1 (e, i) (mapGet_mem _ _ _ hm)
      by_cases hz : setSize (setDelete (heapGet st i) h) = 0
      · -- the last alive handler went away: the map entry is pruned
        have hoff : st.off e h =
            { heapPut st i (setDelete (heapGet st i) h) with
              listeners := mapDelete st.listeners e } := by
          simp [EventSystem.off, hm, hz, heapPut]
        refine ⟨?_, ?_, ?_, ?_⟩
        · rw [hoff]
          simp [EventSystem.off, mapGet_mapDelete_self]
        · rw [hoff]
          simp only [elemsAt, mapGet_mapDelete_self, hm]
          rw [← setElems_setDelete]
          exact (setElems_nil_of_setSize_zero _ hz).symm
        · intro e' hne
          rw [hoff]
          simp only [elemsAt, mapGet_mapDelete_ne st.listeners e e' hne]
          cases hm' : mapGet st.listeners e' with
          | none => rfl
          | some j =>
              have hji : j ≠ i := index_ne_of_inv st e e' i j hinv hm hm' hne
              show setElems (heapGet (heapPut st i _) j) = _
              rw [heapGet_heapPut_ne st i j _ hji]
        · intro e' hne
          rw [hoff]
          exact mem_map_fst_mapDelete st.listeners e e' hne
      · -- other alive handlers remain: only the one entry is tombstoned
        have hoff : st.off e h = heapPut st i (setDelete (heapGet st i) h) := by
          simp [EventSystem.off, hm, hz, heapPut]
        have hget : heapGet (heapPut st i (setDelete (heapGet st i) h)) i
            = setDelete (heapGet st i) h := heapGet_heapPut st i _ hlen
        refine ⟨?_, ?_, ?_, ?_⟩
        · rw [hoff]
          have hm2 : mapGet (heapPut st i (setDelete (heapGet st i) h)).listeners e
              = some i := hm
          simp only [EventSystem.off, hm2, hget, setDelete_idem]
          rw [if_neg hz]
          simp [heapPut, List.set_set]
        · rw [hoff]
          have hm2 : mapGet (heapPut st i (setDelete (heapGet st i) h)).listeners e
              = some i := hm
          simp only [elemsAt, hm2, hm, hget, setElems_setDelete]
        · intro e' hne
          rw [hoff]
          have hm2 : mapGet (heapPut st i (setDelete (heapGet st i) h)).listeners e'
              = mapGet st.listeners e' := rfl
          cases hm' : mapGet st.listeners e' with
          | none => simp only [elemsAt, hm2, hm']
          | some j =>
              have hji : j ≠ i := index_ne_of_inv st e e' i j hinv hm hm' hne
              simp only [elemsAt, hm2, hm', heapGet_heapPut_ne st i j _ hji]
        · intro e' _
          rw [hoff]
          exact Iff.rfl

/-- C10 witness: the precision theorem on a concrete well-formed bus
(three handlers over two events), removing handler 1 of event 0. -/
theorem C10_unsubscribe_witness :
    (((((EventSystem.new defaultOptions).on 0 1).on 0 2).on 3 4).off 0 1).off 0 1
      = ((((EventSystem.new defaultOptions).on 0 1).on 0 2).on 3 4).off 0 1
    ∧ elemsAt (((((EventSystem.new defaultOptions).on 0 1).on 0 2).on 3 4).off 0 1) 0
      = (elemsAt ((((EventSystem.new defaultOptions).on 0 1).on 0 2).on 3 4) 0).filter
          (fun x => x != 1)
    ∧ (∀ e', e' ≠ 0 →
        elemsAt (((((EventSystem.new defaultOptions).on 0 1).on 0 2).on 3 4).off 0 1) e'
          = elemsAt ((((EventSystem.new defaultOptions).on 0 1).on 0 2).on 3 4) e')
    ∧ (∀ e', e' ≠ 0 →
        (e' ∈ (((((EventSystem.new defaultOptions).on 0 1).on 0 2).on 3 4).off 0 1).eventNames
          ↔ e' ∈ ((((EventSystem.new defaultOptions).on 0 1).on 0 2).on 3 4).eventNames)) :=
  C10_unsubscribe_idempotent_precise ((((EventSystem.new defaultOptions).on 0 1).on 0 2).on 3 4)
    0 1 (by decide)

/-!
Claim C7.
-/

/-- Whether a handler body throws depends only on the body: execution
stops at the first `throwErr` and no other action can throw. -/
theorem runProg_fst (p : Prog) : ∀ st, (runProg p st).1 = progThrows p := by
  induction p with
  | nil => intro st; rfl
  | cons a rest ih =>
      intro st
      cases a <;> simp [runProg, progThrows, List.any_cons, ih]

/-- The `Promise.all` fan-out rejects exactly when some handler of the
snapshot throws (all of them run either way). -/
theorem runAllAsync_fst (behav : Behav) (hs : List HId) :
    ∀ st, (runAllAsync behav hs st).1 = hs.any (fun h => progThrows (behav h)) := by
  induction hs with
  | nil => intro st; rfl
  | cons h rest ih =>
      intro st
      simp [runAllAsync, List.any_cons, runProg_fst, ih]

/-- C7: `emitAsync` returns `false` with no handler work at all when
the event has no registered handlers; otherwise its result covers every
handler of the snapshot (all complete); and it never consults
`catchErrors` — flipping that option changes neither the invocation
trace nor the outcome, and any throwing handler makes the failure
propagate to the caller. -/
theorem C7_emitAsync_contract (behav : Behav) (st : EventSystem) (e : Event) (b : Bool) :
    (st.listenerCount e = 0 → st.emitAsync behav e = ([], EmitResult.ret false, st))
    ∧ ((EventSystem.emitAsync behav
          { st with options := { st.options with catchErrors := b } } e).1
        = (st.emitAsync behav e).1
      ∧ (EventSystem.emitAsync behav
          { st with options := { st.options with catchErrors := b } } e).2.1
        = (st.emitAsync behav e).2.1)
    ∧ (st.listenerCount e ≠ 0 →
        ((st.emitAsync behav e).1 = elemsAt st e
        ∧ ((∃ h ∈ elemsAt st e, progThrows (behav h) = true) →
            (st.emitAsync behav e).2.1 = EmitResult.exn)
        ∧ ((∀ h ∈ elemsAt st e, progThrows (behav h) = false) →
            (st.emitAsync behav e).2.1 = EmitResult.ret true))) := by
  refine ⟨?_, ?_, ?_⟩
  · intro hc
    cases hm : mapGet st.listeners e with
    | none => simp [EventSystem.emitAsync, hm]
    | some i =>
        have hz : setSize (heapGet st i) = 0 := by
          simpa [EventSystem.listenerCount, hm] using hc
        simp [EventSystem.emitAsync, hm, hz]
  · cases hm : mapGet st.listeners e with
    | none => simp [EventSystem.emitAsync, hm]
    | some i =>
        have hre : heapGet { st with options := { st.options with catchErrors := b } } i
            = heapGet st i := rfl
        by_cases hz : setSize (heapGet st i) = 0
        · simp [EventSystem.emitAsync, hm, hre, hz]
        · constructor <;> simp [EventSystem.emitAsync, hm, hre, hz, runAllAsync_fst]
  · intro hc
    have hm : ∃ i, mapGet st.listeners e = some i := by
      cases hm : mapGet st.listeners e with
      | none => exact absurd (by simp [EventSystem.listenerCount, hm]) hc
      | some i => exact ⟨i, rfl⟩
    obtain ⟨i, hm⟩ := hm
    have hz : setSize (heapGet st i) ≠ 0 := by
      simpa [EventSystem.listenerCount, hm] using hc
    refine ⟨?_, ?_, ?_⟩
    · simp [EventSystem.emitAsync, hm, hz, elemsAt]
    · intro hex
      have hany : (setElems (heapGet st i)).any (fun h => progThrows (behav h)) = true := by
        rcases hex with ⟨h, hmem, hth⟩
        rw [elemsAt, hm] at hmem
        exact List.any_eq_true.2 ⟨h, hmem, hth⟩
      simp [EventSystem.emitAsync, hm, hz, runAllAsync_fst, hany]
    · intro hall
      have hany : (setElems (heapGet st i)).any (fun h => progThrows (behav h)) = false := by
        rw [List.any_eq_false]
        intro h hmem
        have := hall h (by rw [elemsAt, hm]; exact hmem)
        simp [this]
      simp [EventSystem.emitAsync, hm, hz, runAllAsync_fst, hany]

/-!
Claim C2.
-/

theorem heapGet_congr (st st' : EventSystem) (i : Nat) (hh : st'.heap = st.heap) :
    heapGet st' i = heapGet st i := by
  simp [heapGet, hh]

/-- A handler body with no registry action leaves everything but the
counter unchanged (in particular, it reports nothing to the sink). -/
theorem runProg_pure_frame (p : Prog) (hp : progPure p = true) :
    ∀ st : EventSystem, (runProg p st).2.heap = st.heap
      ∧ (runProg p st).2.listeners = st.listeners
      ∧ (runProg p st).2.options = st.options
      ∧ (runProg p st).2.sinkWarns = st.sinkWarns
      ∧ (runProg p st).2.sinkErrors = st.sinkErrors := by
  induction p with
  | nil => intro st; exact ⟨rfl, rfl, rfl, rfl, rfl⟩
  | cons a rest ih =>
      intro st
      cases a with
      | actOn e h => simp [progPure] at hp
      | actPrepend e h => simp [progPure] at hp
      | actOff e h => simp [progPure] at hp
      | incr =>
          have hp' : progPure rest = true := by simpa [progPure] using hp
          simpa [runProg] using ih hp' { st with counter := st.counter + 1 }
      | throwErr => exact ⟨rfl, rfl, rfl, rfl, rfl⟩

theorem aliveFrom_len (s : SetObj) (ptr : Nat) (hge : s.length ≤ ptr) :
    aliveFrom s ptr = [] := by
  simp [aliveFrom, List.drop_eq_nil_of_le hge]

theorem aliveFrom_step (s : SetObj) : ∀ (ptr : Nat) (en : Entry), s[ptr]? = some en →
    aliveFrom s ptr = (if en.alive then [en.hid] else []) ++ aliveFrom s (ptr + 1) := by
  induction s with
  | nil => intro ptr en h; simp at h
  | cons x rest ih =>
      intro ptr en h
      cases ptr with
      | zero =>
          simp only [List.getElem?_cons_zero, Option.some_inj] at h
          subst h
          cases ha : x.alive <;> simp [aliveFrom, List.filter_cons, ha]
      | succ ptr =>
          simp only [List.getElem?_cons_succ] at h
          have hrec := ih ptr en h
          simp only [aliveFrom, List.drop_succ_cons] at hrec ⊢
          exact hrec

theorem aliveFrom_subset (s : SetObj) (ptr : Nat) (h : HId) (hm : h ∈ aliveFrom s ptr) :
    h ∈ setElems s := by
  simp only [aliveFrom, List.mem_map] at hm
  obtain ⟨en, hen, rfl⟩ := hm
  simp only [List.mem_filter] at hen
  refine List.mem_map.2 ⟨en, List.mem_filter.2 ⟨?_, hen.2⟩, rfl⟩
  exact (List.drop_sublist ptr s).subset hen.1

/-- Emission with `catchErrors` on, over a static set of mutation-free
handlers: every alive handler from `ptr` on runs, the loop returns
`true`, the registry is untouched and the sink receives exactly one
level-0 report per throwing handler. -/
theorem emitIter_pure_catch (behav : Behav) (i : Nat) (s : SetObj)
    (hpure : ∀ h ∈ setElems s, progPure (behav h) = true) :
    ∀ fuel ptr st, heapGet st i = s → ptr ≤ s.length → s.length + 1 ≤ fuel + ptr →
      ∃ st', emitIter behav true i fuel ptr st = (aliveFrom s ptr, EmitResult.ret true, st')
        ∧ st'.heap = st.heap ∧ st'.listeners = st.listeners ∧ st'.options = st.options
        ∧ st'.sinkWarns = st.sinkWarns
        ∧ st'.sinkErrors = st.sinkErrors
            + ((aliveFrom s ptr).filter (fun h => progThrows (behav h))).length := by
  intro fuel
  induction fuel with
  | zero => intro ptr st hs hple hf; omega
  | succ fuel ih =>
      intro ptr st hs hple hf
      rcases Nat.lt_or_ge ptr s.length with hlt | hge
      · obtain ⟨en, hget⟩ : ∃ en, s[ptr]? = some en := ⟨_, List.getElem?_eq_getElem hlt⟩
        have hget' : (heapGet st i)[ptr]? = some en := by rw [hs]; exact hget
        have hstep := aliveFrom_step s ptr en hget
        cases ha : en.alive with
        | false =>
            simp [ha] at hstep
            obtain ⟨st', heq, hh, hl, ho, hw, herr⟩ := ih (ptr + 1) st hs (by omega) (by omega)
            refine ⟨st', ?_, hh, hl, ho, hw, ?_⟩
            · rw [emitIter_dead behav true i fuel ptr st en hget' ha, heq, hstep]
            · rw [herr, hstep]
        | true =>
            simp [ha] at hstep
            have hmem : en.hid ∈ setElems s :=
              aliveFrom_subset s ptr en.hid (by rw [hstep]; exact List.mem_cons_self _ _)
            have hpureh := hpure en.hid hmem
            have hframe := runProg_pure_frame (behav en.hid) hpureh st
            cases hth : progThrows (behav en.hid) with
            | false =>
                have hfst : (runProg (behav en.hid) st).1 = false := by
                  rw [runProg_fst, hth]
                have hrun : runProg (behav en.hid) st
                    = (false, (runProg (behav en.hid) st).2) := by rw [← hfst]
                rw [emitIter_alive behav true i fuel ptr st _ en hget' ha hrun]
                have hs2 : heapGet (runProg (behav en.hid) st).2 i = s := by
                  rw [heapGet_congr st _ i hframe.1, hs]
                obtain ⟨st', heq, hh, hl, ho, hw, herr⟩ :=
                  ih (ptr + 1) (runProg (behav en.hid) st).2 hs2 (by omega) (by omega)
                refine ⟨st', ?_, ?_, ?_, ?_, ?_, ?_⟩
                · rw [heq, hstep]
                · rw [hh, hframe.1]
                · rw [hl, hframe.2.1]
                · rw [ho, hframe.2.2.1]
                · rw [hw, hframe.2.2.2.1]
                · rw [herr, hframe.2.2.2.2, hstep, List.filter_cons]
                  simp [hth]
            | true =>
                have hfst : (runProg (behav en.hid) st).1 = true := by
                  rw [runProg_fst, hth]
                have hrun : runProg (behav en.hid) st
                    = (true, (runProg (behav en.hid) st).2) := by rw [← hfst]
                rw [emitIter_throw_catch behav i fuel ptr st _ en hget' ha hrun]
                have hs2 : heapGet (sinkError (runProg (behav en.hid) st).2) i = s := by
                  have hsheap : (sinkError (runProg (behav en.hid) st).2).heap = st.heap :=
                    hframe.1
                  rw [heapGet_congr st _ i hsheap, hs]
                obtain ⟨st', heq, hh, hl, ho, hw, herr⟩ :=
                  ih (ptr + 1) _ hs2 (by omega) (by omega)
                refine ⟨st', ?_, ?_, ?_, ?_, ?_, ?_⟩
                · rw [heq, hstep]
                · rw [hh]; exact hframe.1
                · rw [hl]; exact hframe.2.1
                · rw [ho]; exact hframe.2.2.1
                · rw [hw]; exact hframe.2.2.2.1
                · rw [herr, hstep, List.filter_cons]
                  simp only [hth, if_true]
                  have hb : (sinkError (runProg (behav en.hid) st).2).sinkErrors
                      = st.sinkErrors + 1 := by
                    simp [sinkError, hframe.2.2.2.2]
                  rw [hb]
                  simp [List.length_cons]
                  omega
      · have hnone : (heapGet st i)[ptr]? = none := by
          rw [hs]; exact List.getElem?_len_le hge
        rw [emitIter_done behav true i fuel ptr st hnone]
        refine ⟨st, ?_, rfl, rfl, rfl, rfl, ?_⟩
        · rw [aliveFrom_len s ptr hge]
        · rw [aliveFrom_len s ptr hge]; rfl

/-- Emission with `catchErrors` off, over a static set of mutation-free
handlers: handlers run in order until the first throwing one, whose
exception aborts the loop and propagates; without a throwing handler
the loop completes and returns `true`.  Nothing reaches the sink. -/
theorem emitIter_pure_nocatch (behav : Behav) (i : Nat) (s : SetObj)
    (hpure : ∀ h ∈ setElems s, progPure (behav h) = true) :
    ∀ fuel ptr st, heapGet st i = s → ptr ≤ s.length → s.length + 1 ≤ fuel + ptr →
      ∃ st', emitIter behav false i fuel ptr st
          = (ncTrace behav (aliveFrom s ptr),
             (if (aliveFrom s ptr).any (fun h => progThrows (behav h)) then EmitResult.exn
              else EmitResult.ret true), st')
        ∧ st'.heap = st.heap ∧ st'.listeners = st.listeners ∧ st'.options = st.options
        ∧ st'.sinkWarns = st.sinkWarns ∧ st'.sinkErrors = st.sinkErrors := by
  intro fuel
  induction fuel with
  | zero => intro ptr st hs hple hf; omega
  | succ fuel ih =>
      intro ptr st hs hple hf
      rcases Nat.lt_or_ge ptr s.length with hlt | hge
      · obtain ⟨en, hget⟩ : ∃ en, s[ptr]? = some en := ⟨_, List.getElem?_eq_getElem hlt⟩
        have hget' : (heapGet st i)[ptr]? = some en := by rw [hs]; exact hget
        have hstep := aliveFrom_step s ptr en hget
        cases ha : en.alive with
        | false =>
            simp [ha] at hstep
            obtain ⟨st', heq, hh, hl, ho, hw, herr⟩ := ih (ptr + 1) st hs (by omega) (by omega)
            exact ⟨st',
              by rw [emitIter_dead behav false i fuel ptr st en hget' ha, heq, hstep],
              hh, hl, ho, hw, herr⟩
        | true =>
            simp [ha] at hstep
            have hmem : en.hid ∈ setElems s :=
              aliveFrom_subset s ptr en.hid (by rw [hstep]; exact List.mem_cons_self _ _)
            have hpureh := hpure en.hid hmem
            have hframe := runProg_pure_frame (behav en.hid) hpureh st
            cases hth : progThrows (behav en.hid) with
            | false =>
                have hfst : (runProg (behav en.hid) st).1 = false := by
                  rw [runProg_fst, hth]
                have hrun : runProg (behav en.hid) st
                    = (false, (runProg (behav en.hid) st).2) := by rw [← hfst]
                rw [emitIter_alive behav false i fuel ptr st _ en hget' ha hrun]
                have hs2 : heapGet (runProg (behav en.hid) st).2 i = s := by
                  rw [heapGet_congr st _ i hframe.1, hs]
                obtain ⟨st', heq, hh, hl, ho, hw, herr⟩ :=
                  ih (ptr + 1) (runProg (behav en.hid) st).2 hs2 (by omega) (by omega)
                refine ⟨st', ?_, ?_, ?_, ?_, ?_, ?_⟩
                · rw [heq, hstep]
                  simp [ncTrace, List.any_cons, hth]
                · rw [hh, hframe.1]
                · rw [hl, hframe.2.1]
                · rw [ho, hframe.2.2.1]
                · rw [hw, hframe.2.2.2.1]
                · rw [herr, hframe.2.2.2.2]
            | true =>
                have hfst : (runProg (behav en.hid) st).1 = true := by
                  rw [runProg_fst, hth]
                have hrun : runProg (behav en.hid) st
                    = (true, (runProg (behav en.hid) st).2) := by rw [← hfst]
                rw [emitIter_throw_nocatch behav i fuel ptr st _ en hget' ha hrun]
                refine ⟨(runProg (behav en.hid) st).2, ?_, hframe.1, hframe.2.1,
                  hframe.2.2.1, hframe.2.2.2.1, hframe.2.2.2.2⟩
                rw [hstep]
                simp [ncTrace, List.any_cons, hth]
      · have hnone : (heapGet st i)[ptr]? = none := by
          rw [hs]; exact List.getElem?_len_le hge
        rw [emitIter_done behav false i fuel ptr st hnone]
        rw [aliveFrom_len s ptr hge]
        exact ⟨st, by simp [ncTrace], rfl, rfl, rfl, rfl, rfl⟩

/-- The no-`catchErrors` trace over a list that splits as non-throwing
handlers, then a throwing one: the prefix plus the thrower. -/
theorem ncTrace_decomp (behav : Behav) (w : HId) (hw : progThrows (behav w) = true) :
    ∀ pre post, (∀ h ∈ pre, progThrows (behav h) = false) →
      ncTrace behav (pre ++ w :: post) = pre ++ [w] := by
  intro pre
  induction pre with
  | nil => intro post _; simp [ncTrace, hw]
  | cons x rest ih =>
      intro post hpre
      have hx : progThrows (behav x) = false := hpre x (List.mem_cons_self _ _)
      simp [ncTrace, hx, ih post (fun h hm => hpre h (List.mem_cons_of_mem _ hm))]

/-- C2: with `catchErrors` enabled, a mutation-free emission with at
least one registered handler runs every handler of the event (the
trace is the full element list) even when some of them throw, returns
`true`, and reports exactly one level-0 error to the diagnostic sink
per throwing handler; with `catchErrors` disabled, the first throwing
handler's failure propagates out of `emit` (`exn` outcome), the
handlers before it ran, and the handlers after it are not invoked. -/
theorem C2_handler_isolation (behav : Behav) (st : EventSystem) (e : Event) (i fuel : Nat)
    (hmap : mapGet st.listeners e = some i)
    (hne : setElems (heapGet st i) ≠ [])
    (hpure : ∀ h ∈ setElems (heapGet st i), progPure (behav h) = true)
    (hfuel : (heapGet st i).length < fuel) :
    (st.options.catchErrors = true →
      ∃ st', EventSystem.emit behav fuel st e
          = (setElems (heapGet st i), EmitResult.ret true, st')
        ∧ st'.sinkErrors = st.sinkErrors
            + ((setElems (heapGet st i)).filter (fun h => progThrows (behav h))).length)
    ∧ (st.options.catchErrors = false →
      ∀ pre w post, setElems (heapGet st i) = pre ++ w :: post →
        (∀ h ∈ pre, progThrows (behav h) = false) → progThrows (behav w) = true →
        ∃ st', EventSystem.emit behav fuel st e = (pre ++ [w], EmitResult.exn, st')) := by
  have hsz : setSize (heapGet st i) ≠ 0 := by
    intro hz
    exact hne (setElems_nil_of_setSize_zero _ hz)
  have hemit := emit_some behav fuel st e i hmap hsz
  have half : aliveFrom (heapGet st i) 0 = setElems (heapGet st i) := by
    simp [aliveFrom, setElems]
  constructor
  · intro hce
    obtain ⟨st', heq, _, _, _, _, herr⟩ :=
      emitIter_pure_catch behav i (heapGet st i) hpure fuel 0 st rfl (by omega) (by omega)
    rw [half] at heq herr
    refine ⟨st', ?_, herr⟩
    rw [hemit, hce, heq]
  · intro hce pre w post hdec hpre hw
    obtain ⟨st', heq, _⟩ :=
      emitIter_pure_nocatch behav i (heapGet st i) hpure fuel 0 st rfl (by omega) (by omega)
    rw [half, hdec] at heq
    rw [ncTrace_decomp behav w hw pre post hpre] at heq
    have hany : (pre ++ w :: post).any (fun h => progThrows (behav h)) = true := by
      simp [List.any_append, List.any_cons, hw]
    simp only [hany, if_true] at heq
    exact ⟨st', by rw [hemit, hce, heq]⟩

/-- C2 witness: on the two concrete buses (handler 3 throws, handler 2
increments), the `catchErrors` bus runs both handlers, returns `true`
and reports exactly one error; the no-`catchErrors` bus aborts after
handler 3 with the exception propagating. -/
theorem C2_isolation_witness :
    (∃ st', EventSystem.emit behavC2 5 stC2a 9 = ([3, 2], EmitResult.ret true, st')
      ∧ st'.sinkErrors = stC2a.sinkErrors + 1)
    ∧ (∃ st', EventSystem.emit behavC2 5 stC2b 9 = ([3], EmitResult.exn, st')) := by
  constructor
  · obtain ⟨st', heq, herr⟩ :=
      (C2_handler_isolation behavC2 stC2a 9 0 5 (by decide) (by decide) (by decide)
        (by decide)).1 (by decide)
    refine ⟨st', ?_, ?_⟩
    · rw [heq, show setElems (heapGet stC2a 0) = [3, 2] from by decide]
    · rw [herr]
      decide
  · obtain ⟨st', heq⟩ :=
      (C2_handler_isolation behavC2 stC2b 9 0 5 (by decide) (by decide) (by decide)
        (by decide)).2 (by decide) [] 3 [2] (by decide) (by decide) (by decide)
    exact ⟨st', by rw [heq]; rfl⟩

/-!
Claim C6.
-/

theorem setHas_map_alive (ys : List HId) (x : HId) :
    setHas (ys.map (fun h => Entry.mk h true)) x = ys.any (fun y => y == x) := by
  induction ys with
  | nil => rfl
  | cons y rest ih => simp [setHas, List.any_cons] at ih ⊢; rw [ih]

theorem setElems_map_alive (ys : List HId) :
    setElems (ys.map (fun h => Entry.mk h true)) = ys := by
  induction ys with
  | nil => rfl
  | cons y rest ih => simpa [setElems, List.filter_cons] using ih

theorem setSize_map_alive (ys : List HId) :
    setSize (ys.map (fun h => Entry.mk h true)) = ys.length := by
  induction ys with
  | nil => rfl
  | cons y rest ih => simpa [setSize, List.filter_cons] using ih

theorem foldl_setAdd_map_alive :
    ∀ (xs ys : List HId), (∀ x ∈ xs, x ∉ ys) → xs.Nodup →
      xs.foldl setAdd (ys.map (fun h => Entry.mk h true))
        = (ys ++ xs).map (fun h => Entry.mk h true) := by
  intro xs
  induction xs with
  | nil => intro ys _ _; simp
  | cons x rest ih =>
      intro ys hfresh hnd
      have hx : x ∉ ys := hfresh x (List.mem_cons_self _ _)
      have hhas : setHas (ys.map (fun h => Entry.mk h true)) x = false := by
        rw [setHas_map_alive, List.any_eq_false]
        intro y hy
        simp only [beq_iff_eq]
        intro hyx
        exact hx (hyx ▸ hy)
      have hstep : setAdd (ys.map (fun h => Entry.mk h true)) x
          = (ys ++ [x]).map (fun h => Entry.mk h true) := by
        simp [setAdd, hhas]
      rw [List.foldl_cons, hstep, ih (ys ++ [x]) ?_ (List.Nodup.of_cons hnd)]
      · simp
      · intro z hz
        simp only [List.mem_append, List.mem_singleton]
        rintro (hzy | rfl)
        · exact hfresh z (List.mem_cons_of_mem _ hz) hzy
        · exact (List.nodup_cons.1 hnd).1 hz

theorem setOfList_nodup (xs : List HId) (hnd : xs.Nodup) :
    setOfList xs = xs.map (fun h => Entry.mk h true) := by
  have := foldl_setAdd_map_alive xs [] (by simp) hnd
  simpa [setOfList] using this

/-- `on` during a registration sequence: the handler joins at the
end. -/
theorem regState_on (st : EventSystem) (e : Event) (h : HId) (acc : List HId)
    (hrs : RegState st e acc) (hfresh : h ∉ acc) :
    RegState (st.on e h) e (acc ++ [h]) := by
  obtain ⟨i, hm, hlen, hset⟩ := hrs
  obtain ⟨w, hw⟩ := on_some_shape st e h i hm
  have hhas : setHas (heapGet st i) h = false := by
    rw [hset, setHas_map_alive, List.any_eq_false]
    intro y hy
    simp only [beq_iff_eq]
    intro hyx
    exact hfresh (hyx ▸ hy)
  refine ⟨i, ?_, ?_, ?_⟩
  · rw [hw]; exact hm
  · rw [hw]; simpa using hlen
  · rw [hw]
    have hhg : heapGet
        { st with heap := st.heap.set i (setAdd (heapGet st i) h), sinkWarns := w } i
        = setAdd (heapGet st i) h := by
      have h2 := heapGet_heapPut { st with sinkWarns := w } i (setAdd (heapGet st i) h)
        (by simpa using hlen)
      simpa [heapPut, heapGet] using h2
    have hhas2 : setHas (acc.map (fun h => Entry.mk h true)) h = false := by
      rw [← hset]; exact hhas
    rw [hhg, hset]
    simp [setAdd, hhas2]

/-- `prepend` during a registration sequence: the handler goes
first. -/
theorem regState_prepend (st : EventSystem) (e : Event) (h : HId) (acc : List HId)
    (hrs : RegState st e acc) (hfresh : h ∉ acc) (hnd : acc.Nodup) :
    RegState (st.prepend e h) e (h :: acc) := by
  obtain ⟨i, hm, hlen, hset⟩ := hrs
  rw [prepend_some_shape st e h i hm]
  refine ⟨st.heap.length, ?_, ?_, ?_⟩
  · exact mapGet_mapSet_self st.listeners e st.heap.length
  · simp
  · show (st.heap ++ [setOfList (h :: setElems (heapGet st i))]).getD st.heap.length []
      = (h :: acc).map (fun h => Entry.mk h true)
    rw [getD_append_length]
    rw [hset, setElems_map_alive]
    exact setOfList_nodup (h :: acc) (List.nodup_cons.2 ⟨hfresh, hnd⟩)

/-- The whole registration sequence, relative to an accumulator. -/
theorem applyRegs_regState (e : Event) :
    ∀ (rs : List Reg) (acc : List HId) (st : EventSystem),
      RegState st e acc → acc.Nodup → (regIds rs).Nodup →
      (∀ h ∈ regIds rs, h ∉ acc) →
      RegState (applyRegs e rs st) e (regOrderAux rs acc) := by
  intro rs
  induction rs with
  | nil => intro acc st hrs _ _ _; exact hrs
  | cons r rest ih =>
      intro acc st hrs haccnd hnd hfresh
      have hr : r.hid ∉ acc := hfresh r.hid (by simp [regIds])
      have hndrest : (regIds rest).Nodup := by
        simpa [regIds] using (List.nodup_cons.1 (by simpa [regIds] using hnd)).2
      have hheadfresh : r.hid ∉ regIds rest :=
        (List.nodup_cons.1 (by simpa [regIds] using hnd)).1
      cases r with
      | addOn h =>
          refine ih (acc ++ [h]) (st.on e h) (regState_on st e h acc hrs hr) ?_ hndrest ?_
          · simp [List.nodup_append, haccnd]
            intro hc
            exact hr hc
          · intro z hz
            simp only [List.mem_append, List.mem_singleton]
            rintro (hzy | rfl)
            · exact hfresh z (by simp [regIds]; right; simpa [regIds] using hz) hzy
            · exact hheadfresh (by simpa [Reg.hid] using hz)
      | addPre h =>
          refine ih (h :: acc) (st.prepend e h)
            (regState_prepend st e h acc hrs hr haccnd) ?_ hndrest ?_
          · exact List.nodup_cons.2 ⟨hr, haccnd⟩
          · intro z hz
            simp only [List.mem_cons]
            rintro (rfl | hzy)
            · exact hheadfresh (by simpa [Reg.hid] using hz)
            · exact hfresh z (by simp [regIds]; right; simpa [regIds] using hz) hzy

theorem regOrderAux_perm : ∀ (rs : List Reg) (acc : List HId),
    (regOrderAux rs acc).Perm (acc ++ regIds rs) := by
  intro rs
  induction rs with
  | nil => intro acc; simp [regOrderAux, regIds]
  | cons r rest ih =>
      intro acc
      cases r with
      | addOn h =>
          refine (ih (acc ++ [h])).trans ?_
          simp only [regIds, List.map_cons, Reg.hid]
          rw [List.append_assoc]
          exact List.Perm.refl _
      | addPre h =>
          refine (ih (h :: acc)).trans ?_
          simp only [regIds, List.map_cons, Reg.hid]
          have h1 : (h :: acc) ++ rest.map Reg.hid = h :: (acc ++ rest.map Reg.hid) := rfl
          rw [h1]
          exact List.perm_middle.symm

theorem ncTrace_no_throw (behav : Behav) :
    ∀ hs : List HId, (∀ h ∈ hs, progThrows (behav h) = false) → ncTrace behav hs = hs := by
  intro hs
  induction hs with
  | nil => intro _; rfl
  | cons h rest ih =>
      intro hall
      have hh := hall h (List.mem_cons_self _ _)
      simp [ncTrace, hh, ih (fun z hz => hall z (List.mem_cons_of_mem _ hz))]

theorem progSilent_pure : ∀ p : Prog, progSilent p = true →
    progPure p = true ∧ progThrows p = false := by
  intro p
  induction p with
  | nil => intro _; exact ⟨rfl, rfl⟩
  | cons a rest ih =>
      intro hs
      simp only [progSilent, List.all_cons, Bool.and_eq_true, beq_iff_eq] at hs
      obtain ⟨ha, hrest⟩ := hs
      have hr : progSilent rest = true := hrest
      obtain ⟨h1, h2⟩ := ih hr
      subst ha
      exact ⟨by simpa [progPure] using h1, by simpa [progThrows] using h2⟩

/-- C6: for a mutation-free registration sequence of distinct handlers
(any mix of `on` and `prepend`, at least one), a single `emit` invokes
each registered handler exactly once (the trace is duplicate-free and a
permutation of the registered ids), in insertion order except that each
`prepend`-registered handler precedes everything registered before it
(`regOrder`), and `emit` returns `true`. -/
theorem C6_emission_order (opts : EventSystemOptions) (e : Event) (r0 : Reg) (rs : List Reg)
    (behav : Behav) (fuel : Nat)
    (hnd : (regIds (r0 :: rs)).Nodup)
    (hsilent : ∀ h ∈ regIds (r0 :: rs), progSilent (behav h) = true)
    (hfuel : (r0 :: rs).length < fuel) :
    (EventSystem.emit behav fuel (applyRegs e (r0 :: rs) (EventSystem.new opts)) e).1
      = regOrder (r0 :: rs)
    ∧ (regOrder (r0 :: rs)).Nodup
    ∧ (regOrder (r0 :: rs)).Perm (regIds (r0 :: rs))
    ∧ (EventSystem.emit behav fuel (applyRegs e (r0 :: rs) (EventSystem.new opts)) e).2.1
      = EmitResult.ret true := by
  have hperm : (regOrder (r0 :: rs)).Perm (regIds (r0 :: rs)) := by
    simpa [regOrder] using regOrderAux_perm (r0 :: rs) []
  have hordernd : (regOrder (r0 :: rs)).Nodup := hperm.nodup_iff.2 hnd
  have hlen : (regOrder (r0 :: rs)).length = (r0 :: rs).length := by
    have := hperm.length_eq
    simpa [regIds] using this
  -- the first registration creates the event's set
  have hndrest : (regIds rs).Nodup := (List.nodup_cons.1 (by simpa [regIds] using hnd)).2
  have hheadfresh : r0.hid ∉ regIds rs := (List.nodup_cons.1 (by simpa [regIds] using hnd)).1
  have hmapnil : mapGet (EventSystem.new opts).listeners e = none := rfl
  have hstate : RegState (applyRegs e (r0 :: rs) (EventSystem.new opts)) e
      (regOrder (r0 :: rs)) := by
    cases r0 with
    | addOn h =>
        obtain ⟨w, hw⟩ := on_none_shape (EventSystem.new opts) e h hmapnil
        have hbase : RegState ((EventSystem.new opts).on e h) e [h] := by
          refine ⟨0, ?_, ?_, ?_⟩ <;> rw [hw] <;>
            simp [EventSystem.new, mapSet, mapGet, heapGet]
        show RegState (applyRegs e rs ((EventSystem.new opts).on e h)) e
          (regOrderAux rs [h])
        exact applyRegs_regState e rs [h] _ hbase (List.nodup_singleton h) hndrest
          (by intro z hz; simpa using fun hzh => hheadfresh (by simpa [Reg.hid, hzh] using hz))
    | addPre h =>
        have hw := prepend_none_shape (EventSystem.new opts) e h hmapnil
        have hbase : RegState ((EventSystem.new opts).prepend e h) e [h] := by
          refine ⟨1, ?_, ?_, ?_⟩ <;> rw [hw] <;>
            simp [EventSystem.new, mapSet, mapGet, heapGet, setOfList, setAdd, setHas]
        show RegState (applyRegs e rs ((EventSystem.new opts).prepend e h)) e
          (regOrderAux rs [h])
        exact applyRegs_regState e rs [h] _ hbase (List.nodup_singleton h) hndrest
          (by intro z hz; simpa using fun hzh => hheadfresh (by simpa [Reg.hid, hzh] using hz))
  obtain ⟨i, hm, hilen, hset⟩ := hstate
  have helems : setElems (heapGet (applyRegs e (r0 :: rs) (EventSystem.new opts)) i)
      = regOrder (r0 :: rs) := by
    rw [hset, setElems_map_alive]
  have hentlen : (heapGet (applyRegs e (r0 :: rs) (EventSystem.new opts)) i).length
      = (r0 :: rs).length := by
    rw [hset]
    simpa using hlen
  have hsz : setSize (heapGet (applyRegs e (r0 :: rs) (EventSystem.new opts)) i) ≠ 0 := by
    rw [hset, setSize_map_alive, hlen]
    simp
  have hsilent' : ∀ h ∈ regOrder (r0 :: rs), progSilent (behav h) = true := by
    intro h hh
    exact hsilent h (hperm.subset hh)
  have hpure : ∀ h ∈ setElems (heapGet (applyRegs e (r0 :: rs) (EventSystem.new opts)) i),
      progPure (behav h) = true := by
    intro h hh
    rw [helems] at hh
    exact (progSilent_pure _ (hsilent' h hh)).1
  have hemit := emit_some behav fuel (applyRegs e (r0 :: rs) (EventSystem.new opts)) e i hm hsz
  refine ⟨?_, hordernd, hperm, ?_⟩
  · cases hce : (applyRegs e (r0 :: rs) (EventSystem.new opts)).options.catchErrors with
    | true =>
        obtain ⟨st', heq, _⟩ := emitIter_pure_catch behav i _ hpure fuel 0 _ rfl
          (by omega) (by rw [hentlen]; omega)
        rw [hemit, hce, heq]
        simp [aliveFrom, helems.symm, setElems]
    | false =>
        obtain ⟨st', heq, _⟩ := emitIter_pure_nocatch behav i _ hpure fuel 0 _ rfl
          (by omega) (by rw [hentlen]; omega)
        have hnothrow : ∀ h ∈ aliveFrom (heapGet (applyRegs e (r0 :: rs)
            (EventSystem.new opts)) i) 0, progThrows (behav h) = false := by
          intro h hh
          have : h ∈ regOrder (r0 :: rs) := by
            rw [← helems]
            simpa [aliveFrom, setElems] using hh
          exact (progSilent_pure _ (hsilent' h this)).2
        rw [hemit, hce, heq, ncTrace_no_throw behav _ hnothrow]
        have hany : (aliveFrom (heapGet (applyRegs e (r0 :: rs)
            (EventSystem.new opts)) i) 0).any (fun h => progThrows (behav h)) = false := by
          rw [List.any_eq_false]
          intro h hh
          simp [hnothrow h hh]
        simp [hany, aliveFrom, helems.symm, setElems]
  · cases hce : (applyRegs e (r0 :: rs) (EventSystem.new opts)).options.catchErrors with
    | true =>
        obtain ⟨st', heq, _⟩ := emitIter_pure_catch behav i _ hpure fuel 0 _ rfl
          (by omega) (by rw [hentlen]; omega)
        rw [hemit, hce, heq]
    | false =>
        obtain ⟨st', heq, _⟩ := emitIter_pure_nocatch behav i _ hpure fuel 0 _ rfl
          (by omega) (by rw [hentlen]; omega)
        have hnothrow : ∀ h ∈ aliveFrom (heapGet (applyRegs e (r0 :: rs)
            (EventSystem.new opts)) i) 0, progThrows (behav h) = false := by
          intro h hh
          have : h ∈ regOrder (r0 :: rs) := by
            rw [← helems]
            simpa [aliveFrom, setElems] using hh
          exact (progSilent_pure _ (hsilent' h this)).2
        have hany : (aliveFrom (heapGet (applyRegs e (r0 :: rs)
            (EventSystem.new opts)) i) 0).any (fun h => progThrows (behav h)) = false := by
          rw [List.any_eq_false]
          intro h hh
          simp [hnothrow h hh]
        rw [hemit, hce, heq]
        simp [hany]

/-- C6 witness: `on 1`, `prepend 2`, `on 3` with silent handlers emits
in the order `[2, 1, 3]`. -/
theorem C6_emission_witness :
    (EventSystem.emit behavIncr 5
        (applyRegs 0 [Reg.addOn 1, Reg.addPre 2, Reg.addOn 3]
          (EventSystem.new defaultOptions)) 0).1
      = regOrder [Reg.addOn 1, Reg.addPre 2, Reg.addOn 3]
    ∧ (regOrder [Reg.addOn 1, Reg.addPre 2, Reg.addOn 3]).Nodup
    ∧ (regOrder [Reg.addOn 1, Reg.addPre 2, Reg.addOn 3]).Perm
        (regIds [Reg.addOn 1, Reg.addPre 2, Reg.addOn 3])
    ∧ (EventSystem.emit behavIncr 5
        (applyRegs 0 [Reg.addOn 1, Reg.addPre 2, Reg.addOn 3]
          (EventSystem.new defaultOptions)) 0).2.1 = EmitResult.ret true :=
  C6_emission_order defaultOptions 0 (Reg.addOn 1) [Reg.addPre 2, Reg.addOn 3]
    behavIncr 5 (by decide) (by decide) (by decide)

/-!
Claim C8.
-/

theorem mapGet_none_not_mem (m : List (Event × Nat)) (e : Event)
    (hm : mapGet m e = none) : e ∉ m.map Prod.fst := by
  induction m with
  | nil => simp
  | cons p rest ih =>
      by_cases hpe : p.1 = e
      · simp [mapGet, hpe] at hm
      · simp only [mapGet, beq_iff_eq, hpe, if_false] at hm
        simp only [List.map_cons, List.mem_cons]
        rintro (rfl | hmem)
        · exact hpe rfl
        · exact ih hm hmem

theorem mapGet_isSome_of_mem (m : List (Event × Nat)) (e : Event)
    (he : e ∈ m.map Prod.fst) : ∃ i, mapGet m e = some i := by
  induction m with
  | nil => simp at he
  | cons p rest ih =>
      by_cases hpe : p.1 = e
      · exact ⟨p.2, by simp [mapGet, hpe]⟩
      · simp only [List.map_cons, List.mem_cons] at he
        rcases he with rfl | hmem
        · exact absurd rfl hpe
        · obtain ⟨i, hi⟩ := ih hmem
          exact ⟨i, by simp [mapGet, hpe, hi]⟩

theorem mapSet_of_get_none (m : List (Event × Nat)) (e : Event) (j : Nat)
    (hm : mapGet m e = none) : mapSet m e j = m ++ [(e, j)] := by
  induction m with
  | nil => rfl
  | cons p rest ih =>
      by_cases hpe : p.1 = e
      · simp [mapGet, hpe] at hm
      · simp only [mapGet, beq_iff_eq, hpe, if_false] at hm
        simp [mapSet, hpe, ih hm]

theorem mapSet_split (m : List (Event × Nat)) (e : Event) (j : Nat) :
    ∀ i, mapGet m e = some i →
      ∃ m1 m2, m = m1 ++ (e, i) :: m2 ∧ mapSet m e j = m1 ++ (e, j) :: m2
        ∧ (∀ q ∈ m1, q.1 ≠ e) := by
  induction m with
  | nil => intro i hm; simp [mapGet] at hm
  | cons p rest ih =>
      intro i hm
      by_cases hpe : p.1 = e
      · obtain ⟨a, b⟩ := p
        simp only at hpe
        subst hpe
        simp only [mapGet, beq_self_eq_true, if_true, Option.some_inj] at hm
        subst hm
        exact ⟨[], rest, rfl, by simp [mapSet], by simp⟩
      · simp only [mapGet, beq_iff_eq, hpe, if_false] at hm
        obtain ⟨m1, m2, h1, h2, h3⟩ := ih i hm
        refine ⟨p :: m1, m2, by rw [h1]; rfl, ?_, ?_⟩
        · simp only [mapSet, beq_iff_eq, hpe, if_false, h2]
          rfl
        · intro q hq
          rcases List.mem_cons.1 hq with rfl | hq'
          · exact hpe
          · exact h3 q hq'

theorem mapDelete_sublist (m : List (Event × Nat)) (e : Event) :
    (mapDelete m e).Sublist m := by
  induction m with
  | nil => exact List.Sublist.refl _
  | cons p rest ih =>
      by_cases hpe : p.1 = e
      · simp only [mapDelete, beq_iff_eq, hpe, if_true]
        exact ih.cons p
      · simp only [mapDelete, beq_iff_eq, hpe, if_false]
        exact ih.cons₂ p

theorem mem_mapDelete (m : List (Event × Nat)) (e : Event) (q : Event × Nat)
    (hq : q ∈ mapDelete m e) : q ∈ m := (mapDelete_sublist m e).subset hq

theorem setSize_setAdd_pos (s : SetObj) (h : HId) (hp : 0 < setSize s) :
    0 < setSize (setAdd s h) := by
  by_cases hh : setHas s h = true
  · simpa [setAdd, hh] using hp
  · simp only [setAdd, hh, if_false]
    simp [setSize, List.filter_append]

theorem setSize_pos_of_setHas (s : SetObj) (h : HId) (hh : setHas s h = true) :
    0 < setSize s := by
  induction s with
  | nil => simp [setHas] at hh
  | cons en rest ih =>
      simp only [setHas, List.any_cons, Bool.or_eq_true, Bool.and_eq_true] at hh
      rcases hh with ⟨ha, _⟩ | hh'
      · simp [setSize, List.filter_cons, ha]
      · have hrest := ih (by simpa [setHas] using hh')
        cases hal : en.alive with
        | false => simpa [setSize, List.filter_cons, hal] using hrest
        | true => simp [setSize, List.filter_cons, hal]

theorem snd_ne_of_nodup (m : List (Event × Nat)) (hnd : (m.map Prod.snd).Nodup)
    (p q : Event × Nat) (hp : p ∈ m) (hq : q ∈ m) (hne : p ≠ q) : p.2 ≠ q.2 :=
  fun h => hne (List.inj_on_of_nodup_map hnd hp hq h)

theorem getD_set_self (l : List SetObj) (i : Nat) (s : SetObj) (hlt : i < l.length) :
    (l.set i s).getD i [] = s := by
  simp [List.getD_eq_getElem?_getD, List.getElem?_set_eq_of_lt _ hlt]

theorem getD_set_ne (l : List SetObj) (i j : Nat) (s : SetObj) (hne : j ≠ i) :
    (l.set i s).getD j [] = l.getD j [] := by
  simp [List.getD_eq_getElem?_getD, List.getElem?_set_ne (Ne.symm hne)]

theorem getD_append_left (l l2 : List SetObj) (j : Nat) (hlt : j < l.length) :
    (l ++ l2).getD j [] = l.getD j [] := by
  simp [List.getD_eq_getElem?_getD, List.getElem?_append, hlt]

theorem esInv_new (opts : EventSystemOptions) : ESInv (EventSystem.new opts) := by
  refine ⟨?_, ?_, ?_⟩
  · intro p hp
    simp [EventSystem.new] at hp
  · simp [EventSystem.new]
  · simp [EventSystem.new]

theorem esInv_on (st : EventSystem) (e : Event) (h : HId) (hinv : ESInv st) :
    ESInv (st.on e h) := by
  obtain ⟨h1, h2, h3⟩ := hinv
  cases hm : mapGet st.listeners e with
  | some i =>
      obtain ⟨w, hw⟩ := on_some_shape st e h i hm
      have hei : (e, i) ∈ st.listeners := mapGet_mem _ _ _ hm
      obtain ⟨hszi, hleni⟩ := h1 (e, i) hei
      rw [hw]
      refine ⟨?_, h2, h3⟩
      intro p hp
      constructor
      · show 0 < setSize ((st.heap.set i (setAdd (heapGet st i) h)).getD p.2 [])
        by_cases hpi : p.2 = i
        · rw [hpi, getD_set_self _ _ _ hleni]
          exact setSize_setAdd_pos _ _ hszi
        · rw [getD_set_ne _ _ _ _ hpi]
          exact (h1 p hp).1
      · show p.2 < (st.heap.set i (setAdd (heapGet st i) h)).length
        simpa [List.length_set] using (h1 p hp).2
  | none =>
      obtain ⟨w, hw⟩ := on_none_shape st e h hm
      have hkeys : e ∉ st.listeners.map Prod.fst := mapGet_none_not_mem _ _ hm
      rw [hw, mapSet_of_get_none st.listeners e st.heap.length hm]
      refine ⟨?_, ?_, ?_⟩
      · intro p hp
        rcases List.mem_append.1 hp with hp' | hp'
        · obtain ⟨hsz, hlen⟩ := h1 p hp'
          constructor
          · show 0 < setSize ((st.heap ++ [[Entry.mk h true]]).getD p.2 [])
            rw [getD_append_left _ _ _ hlen]
            exact hsz
          · show p.2 < (st.heap ++ [[Entry.mk h true]]).length
            simp only [List.length_append, List.length_singleton]
            omega
        · simp only [List.mem_singleton] at hp'
          subst hp'
          constructor
          · show 0 < setSize ((st.heap ++ [[Entry.mk h true]]).getD st.heap.length [])
            rw [getD_append_length]
            simp [setSize]
          · show st.heap.length < (st.heap ++ [[Entry.mk h true]]).length
            simp
      · show ((st.listeners ++ [(e, st.heap.length)]).map Prod.fst).Nodup
        rw [List.map_append, List.nodup_append]
        refine ⟨h2, by simp, ?_⟩
        intro a ha hae
        simp only [List.map_cons, List.map_nil, List.mem_singleton] at hae
        subst hae
        exact hkeys ha
      · show ((st.listeners ++ [(e, st.heap.length)]).map Prod.snd).Nodup
        rw [List.map_append, List.nodup_append]
        refine ⟨h3, by simp, ?_⟩
        intro a ha hae
        simp only [List.map_cons, List.map_nil, List.mem_singleton] at hae
        subst hae
        obtain ⟨q, hq, hq2⟩ := List.mem_map.1 ha
        have := (h1 q hq).2
        omega

theorem mapSet_append_key (m : List (Event × Nat)) (e : Event) (i j : Nat)
    (hm : mapGet m e = none) : mapSet (m ++ [(e, i)]) e j = m ++ [(e, j)] := by
  induction m with
  | nil => simp [mapSet]
  | cons p rest ih =>
      by_cases hpe : p.1 = e
      · simp [mapGet, hpe] at hm
      · simp only [mapGet, beq_iff_eq, hpe, if_false] at hm
        simp only [List.cons_append, mapSet, beq_iff_eq, hpe, if_false]
        exact congrArg (fun t => p :: t) (ih hm)

theorem esInv_prepend (st : EventSystem) (e : Event) (h : HId) (hinv : ESInv st) :
    ESInv (st.prepend e h) := by
  obtain ⟨h1, h2, h3⟩ := hinv
  cases hm : mapGet st.listeners e with
  | some i =>
      obtain ⟨m1, m2, hsplit, hset, hm1⟩ :=
        mapSet_split st.listeners e st.heap.length i hm
      rw [prepend_some_shape st e h i hm, hset]
      have hmem_old : ∀ q, q ∈ m1 ∨ q ∈ m2 → q ∈ st.listeners := by
        intro q hq
        rw [hsplit]
        rcases hq with hq | hq
        · exact List.mem_append.2 (Or.inl hq)
        · exact List.mem_append.2 (Or.inr (List.mem_cons_of_mem _ hq))
      refine ⟨?_, ?_, ?_⟩
      · intro p hp
        have hbound : ∀ q, q ∈ m1 ∨ q ∈ m2 →
            0 < setSize ((st.heap ++ [setOfList (h :: setElems (heapGet st i))]).getD q.2 [])
              ∧ q.2 < (st.heap ++ [setOfList (h :: setElems (heapGet st i))]).length := by
          intro q hq
          obtain ⟨hsz, hlen⟩ := h1 q (hmem_old q hq)
          constructor
          · rw [getD_append_left _ _ _ hlen]
            exact hsz
          · simp only [List.length_append, List.length_singleton]
            omega
        rcases List.mem_append.1 hp with hp' | hp'
        · exact hbound p (Or.inl hp')
        · rcases List.mem_cons.1 hp' with rfl | hp''
          · constructor
            · show 0 < setSize ((st.heap ++ [setOfList (h :: setElems (heapGet st i))]).getD
                st.heap.length [])
              rw [getD_append_length]
              exact setSize_pos_of_setHas _ h (setHas_setOfList_head h _)
            · show st.heap.length < (st.heap ++ [setOfList (h :: setElems (heapGet st i))]).length
              simp
          · exact hbound p (Or.inr hp'')
      · have hkeys : (m1 ++ (e, st.heap.length) :: m2).map Prod.fst
            = st.listeners.map Prod.fst := by
          rw [hsplit]
          simp
        rw [hkeys]
        exact h2
      · have hold : (st.listeners.map Prod.snd) = m1.map Prod.snd ++ i :: m2.map Prod.snd := by
          rw [hsplit]; simp
        rw [hold] at h3
        show ((m1 ++ (e, st.heap.length) :: m2).map Prod.snd).Nodup
        have hnew : (m1 ++ (e, st.heap.length) :: m2).map Prod.snd
            = m1.map Prod.snd ++ st.heap.length :: m2.map Prod.snd := by simp
        rw [hnew]
        rw [List.nodup_middle] at h3 ⊢
        rcases List.nodup_cons.1 h3 with ⟨_, hrest⟩
        refine List.nodup_cons.2 ⟨?_, hrest⟩
        intro hc
        rcases List.mem_append.1 hc with hc | hc <;>
          obtain ⟨q, hq, hq2⟩ := List.mem_map.1 hc
        · have := (h1 q (hmem_old q (Or.inl hq))).2
          omega
        · have := (h1 q (hmem_old q (Or.inr hq))).2
          omega
  | none =>
      have hkeys : e ∉ st.listeners.map Prod.fst := mapGet_none_not_mem _ _ hm
      rw [prepend_none_shape st e h hm,
        mapSet_of_get_none st.listeners e st.heap.length hm,
        mapSet_append_key st.listeners e st.heap.length (st.heap.length + 1) hm]
      refine ⟨?_, ?_, ?_⟩
      · intro p hp
        rcases List.mem_append.1 hp with hp' | hp'
        · obtain ⟨hsz, hlen⟩ := h1 p hp'
          constructor
          · show 0 < setSize (((st.heap ++ [[]]) ++ [setOfList [h]]).getD p.2 [])
            rw [getD_append_left _ _ _ (by simp only [List.length_append]; omega),
              getD_append_left _ _ _ hlen]
            exact hsz
          · show p.2 < ((st.heap ++ [[]]) ++ [setOfList [h]]).length
            simp only [List.length_append, List.length_singleton]
            omega
        · simp only [List.mem_singleton] at hp'
          subst hp'
          constructor
          · show 0 < setSize (((st.heap ++ [[]]) ++ [setOfList [h]]).getD
              (st.heap.length + 1) [])
            have hlen2 : st.heap.length + 1 = (st.heap ++ [[]]).length := by simp
            rw [hlen2, getD_append_length]
            exact setSize_pos_of_setHas _ h (setHas_setOfList_head h [])
          · show st.heap.length + 1 < ((st.heap ++ [[]]) ++ [setOfList [h]]).length
            simp
      · show ((st.listeners ++ [(e, st.heap.length + 1)]).map Prod.fst).Nodup
        rw [List.map_append, List.nodup_append]
        refine ⟨h2, by simp, ?_⟩
        intro a ha hae
        simp only [List.map_cons, List.map_nil, List.mem_singleton] at hae
        subst hae
        exact hkeys ha
      · show ((st.listeners ++ [(e, st.heap.length + 1)]).map Prod.snd).Nodup
        rw [List.map_append, List.nodup_append]
        refine ⟨h3, by simp, ?_⟩
        intro a ha hae
        simp only [List.map_cons, List.map_nil, List.mem_singleton] at hae
        subst hae
        obtain ⟨q, hq, hq2⟩ := List.mem_map.1 ha
        have := (h1 q hq).2
        omega

theorem mem_mapDelete_key_ne (m : List (Event × Nat)) (e : Event) (q : Event × Nat) :
    q ∈ mapDelete m e → q.1 ≠ e := by
  induction m with
  | nil => intro hq; simp [mapDelete] at hq
  | cons p rest ih =>
      intro hq
      by_cases hpe : p.1 = e
      · exact ih (by simpa [mapDelete, hpe] using hq)
      · simp only [mapDelete, beq_iff_eq, hpe, if_false, List.mem_cons] at hq
        rcases hq with rfl | hq'
        · exact hpe
        · exact ih hq'

theorem esInv_off (st : EventSystem) (e : Event) (h : HId) (hinv : ESInv st) :
    ESInv (st.off e h) := by
  obtain ⟨h1, h2, h3⟩ := hinv
  cases hm : mapGet st.listeners e with
  | none =>
      have hoff : st.off e h = st := by simp [EventSystem.off, hm]
      rw [hoff]
      exact ⟨h1, h2, h3⟩
  | some i =>
      have hei : (e, i) ∈ st.listeners := mapGet_mem _ _ _ hm
      obtain ⟨hszi, hleni⟩ := h1 (e, i) hei
      by_cases hz : setSize (setDelete (heapGet st i) h) = 0
      · have hoff : st.off e h =
            { heapPut st i (setDelete (heapGet st i) h) with
              listeners := mapDelete st.listeners e } := by
          simp [EventSystem.off, hm, hz, heapPut]
        rw [hoff]
        refine ⟨?_, ?_, ?_⟩
        · intro p hp
          have hpm : p ∈ st.listeners := mem_mapDelete _ _ _ hp
          have hpe : p.1 ≠ e := mem_mapDelete_key_ne st.listeners e p hp
          have hppair : p ≠ (e, i) := fun hc => hpe (by rw [hc])
          have hpi : p.2 ≠ i := snd_ne_of_nodup st.listeners h3 p (e, i) hpm hei hppair
          obtain ⟨hsz, hlen⟩ := h1 p hpm
          constructor
          · show 0 < setSize ((st.heap.set i (setDelete (heapGet st i) h)).getD p.2 [])
            rw [getD_set_ne _ _ _ _ hpi]
            exact hsz
          · show p.2 < (st.heap.set i (setDelete (heapGet st i) h)).length
            simpa [List.length_set] using hlen
        · show ((mapDelete st.listeners e).map Prod.fst).Nodup
          exact List.Nodup.sublist ((mapDelete_sublist st.listeners e).map Prod.fst) h2
        · show ((mapDelete st.listeners e).map Prod.snd).Nodup
          exact List.Nodup.sublist ((mapDelete_sublist st.listeners e).map Prod.snd) h3
      · have hoff : st.off e h = heapPut st i (setDelete (heapGet st i) h) := by
          simp [EventSystem.off, hm, hz, heapPut]
        rw [hoff]
        refine ⟨?_, h2, h3⟩
        intro p hp
        by_cases hpi : p.2 = i
        · constructor
          · show 0 < setSize ((st.heap.set i (setDelete (heapGet st i) h)).getD p.2 [])
            rw [hpi, getD_set_self _ _ _ hleni]
            exact Nat.pos_of_ne_zero hz
          · show p.2 < (st.heap.set i (setDelete (heapGet st i) h)).length
            simpa [List.length_set] using (h1 p hp).2
        · constructor
          · show 0 < setSize ((st.heap.set i (setDelete (heapGet st i) h)).getD p.2 [])
            rw [getD_set_ne _ _ _ _ hpi]
            exact (h1 p hp).1
          · show p.2 < (st.heap.set i (setDelete (heapGet st i) h)).length
            simpa [List.length_set] using (h1 p hp).2

theorem esInv_removeAllListeners (st : EventSystem) (e : Option Event) (hinv : ESInv st) :
    ESInv (st.removeAllListeners e) := by
  obtain ⟨h1, h2, h3⟩ := hinv
  cases e with
  | none =>
      refine ⟨?_, ?_, ?_⟩
      · intro p hp
        simp [EventSystem.removeAllListeners] at hp
      · show (([] : List (Event × Nat)).map Prod.fst).Nodup
        simp
      · show (([] : List (Event × Nat)).map Prod.snd).Nodup
        simp
  | some e =>
      refine ⟨?_, ?_, ?_⟩
      · intro p hp
        exact h1 p (mem_mapDelete _ _ _ hp)
      · show ((mapDelete st.listeners e).map Prod.fst).Nodup
        exact List.Nodup.sublist ((mapDelete_sublist st.listeners e).map Prod.fst) h2
      · show ((mapDelete st.listeners e).map Prod.snd).Nodup
        exact List.Nodup.sublist ((mapDelete_sublist st.listeners e).map Prod.snd) h3

theorem esInv_runProg : ∀ (p : Prog) (st : EventSystem), ESInv st → ESInv (runProg p st).2 := by
  intro p
  induction p with
  | nil => intro st h; exact h
  | cons a rest ih =>
      intro st h
      cases a with
      | actOn e hh => exact ih _ (esInv_on st e hh h)
      | actPrepend e hh => exact ih _ (esInv_prepend st e hh h)
      | actOff e hh => exact ih _ (esInv_off st e hh h)
      | incr => exact ih _ h
      | throwErr => exact h

theorem esInv_emitIter (behav : Behav) (ce : Bool) (i : Nat) :
    ∀ (fuel ptr : Nat) (st : EventSystem), ESInv st →
      ESInv (emitIter behav ce i fuel ptr st).2.2 := by
  intro fuel
  induction fuel with
  | zero => intro ptr st h; exact h
  | succ fuel ih =>
      intro ptr st h
      cases hget : (heapGet st i)[ptr]? with
      | none =>
          rw [emitIter_done behav ce i fuel ptr st hget]
          exact h
      | some en =>
          cases ha : en.alive with
          | false =>
              rw [emitIter_dead behav ce i fuel ptr st en hget ha]
              exact ih (ptr + 1) st h
          | true =>
              have hrp : ESInv (runProg (behav en.hid) st).2 := esInv_runProg _ _ h
              cases hth : (runProg (behav en.hid) st).1 with
              | false =>
                  have hrun : runProg (behav en.hid) st
                      = (false, (runProg (behav en.hid) st).2) := by rw [← hth]
                  rw [emitIter_alive behav ce i fuel ptr st _ en hget ha hrun]
                  exact ih (ptr + 1) _ hrp
              | true =>
                  have hrun : runProg (behav en.hid) st
                      = (true, (runProg (behav en.hid) st).2) := by rw [← hth]
                  cases ce with
                  | true =>
                      rw [emitIter_throw_catch behav i fuel ptr st _ en hget ha hrun]
                      exact ih (ptr + 1) _ hrp
                  | false =>
                      rw [emitIter_throw_nocatch behav i fuel ptr st _ en hget ha hrun]
                      exact hrp

theorem esInv_emit (behav : Behav) (fuel : Nat) (st : EventSystem) (e : Event)
    (hinv : ESInv st) : ESInv (EventSystem.emit behav fuel st e).2.2 := by
  cases hm : mapGet st.listeners e with
  | none =>
      cases hw : st.options.warnOnNoListeners with
      | false =>
          have : (EventSystem.emit behav fuel st e).2.2 = st := by
            simp [EventSystem.emit, hm, hw]
          rw [this]
          exact hinv
      | true =>
          have : (EventSystem.emit behav fuel st e).2.2 = sinkWarn st := by
            simp [EventSystem.emit, hm, hw]
          rw [this]
          exact hinv
  | some i =>
      by_cases hz : setSize (heapGet st i) = 0
      · cases hw : st.options.warnOnNoListeners with
        | false =>
            have : (EventSystem.emit behav fuel st e).2.2 = st := by
              simp [EventSystem.emit, hm, hw, hz]
            rw [this]
            exact hinv
        | true =>
            have : (EventSystem.emit behav fuel st e).2.2 = sinkWarn st := by
              simp [EventSystem.emit, hm, hw, hz]
            rw [this]
            exact hinv
      · rw [emit_some behav fuel st e i hm hz]
        exact esInv_emitIter behav st.options.catchErrors i fuel 0 st hinv

theorem esInv_applyOp (behav : Behav) (fuel : Nat) (op : BusOp) (st : EventSystem)
    (hinv : ESInv st) : ESInv (applyOp behav fuel op st) := by
  cases op with
  | opOn e h => exact esInv_on st e h hinv
  | opPrepend e h => exact esInv_prepend st e h hinv
  | opOnce e w => exact esInv_on st e w hinv
  | opOff e h => exact esInv_off st e h hinv
  | opRemoveAll e => exact esInv_removeAllListeners st e hinv
  | opEmit e => exact esInv_emit behav fuel st e hinv

theorem esInv_applyOps (behav : Behav) (fuel : Nat) :
    ∀ (ops : List BusOp) (st : EventSystem), ESInv st →
      ESInv (applyOps behav fuel ops st) := by
  intro ops
  induction ops with
  | nil => intro st h; exact h
  | cons op rest ih => intro st h; exact ih _ (esInv_applyOp behav fuel op st h)

/-- C8: after any sequence of registry operations on a fresh bus (`on`,
`prepend`, `once`, `off`, `removeAllListeners`, `emit` — including
registry mutations performed by handlers during emissions), every event
name the registry reports via `eventNames` has a strictly positive
`listenerCount`: an event whose last handler was removed has had its
map entry deleted on the spot, so no empty handler set is ever
observable. -/
theorem C8_no_empty_registry_entries (behav : Behav) (fuel : Nat)
    (opts : EventSystemOptions) (ops : List BusOp) (e : Event)
    (he : e ∈ (applyOps behav fuel ops (EventSystem.new opts)).eventNames) :
    0 < (applyOps behav fuel ops (EventSystem.new opts)).listenerCount e := by
  have hinv := esInv_applyOps behav fuel ops (EventSystem.new opts) (esInv_new opts)
  obtain ⟨i, hi⟩ := mapGet_isSome_of_mem _ e he
  have hmem := mapGet_mem _ _ _ hi
  have := (hinv.1 (e, i) hmem).1
  rw [EventSystem.listenerCount, hi]
  exact this

/-- C8 witness: a concrete operation sequence — registrations, a `once`
wrapper consumed by an emission, an `off` of an unknown handler, a
`prepend` and a wholesale removal — leaves event 0 in `eventNames`
with a positive count. -/
theorem C8_no_empty_witness :
    0 < (applyOps behavC5 10
        [BusOp.opOn 0 1, BusOp.opOnce 0 2, BusOp.opEmit 0, BusOp.opOff 3 9,
          BusOp.opPrepend 4 5, BusOp.opRemoveAll (some 4)]
        (EventSystem.new defaultOptions)).listenerCount 0 :=
  C8_no_empty_registry_entries behavC5 10 defaultOptions
    [BusOp.opOn 0 1, BusOp.opOnce 0 2, BusOp.opEmit 0, BusOp.opOff 3 9,
      BusOp.opPrepend 4 5, BusOp.opRemoveAll (some 4)] 0 (by decide)

/-!
Claim C5.
-/

theorem setSize_eq_elems (s : SetObj) : setSize s = (setElems s).length := by
  simp [setSize, setElems]

theorem aliveFrom_zero (s : SetObj) : aliveFrom s 0 = setElems s := by
  simp [aliveFrom, setElems]

theorem length_setDelete (s : SetObj) (w : HId) : (setDelete s w).length = s.length := by
  simp [setDelete]

theorem setHas_false_of_not_mem (s : SetObj) (h : HId) (hm : h ∉ setElems s) :
    setHas s h = false := by
  induction s with
  | nil => rfl
  | cons en rest ih =>
      cases ha : en.alive with
      | false =>
          have hm' : h ∉ setElems rest := by
            simpa [setElems, List.filter_cons, ha] using hm
          simpa [setHas, List.any_cons, ha] using ih hm'
      | true =>
          have hm' : ¬(h = en.hid ∨ h ∈ setElems rest) := by
            simpa [setElems, List.filter_cons, ha] using hm
          push_neg at hm'
          simp only [setHas, List.any_cons, ha, Bool.true_and]
          have hrest : setHas rest h = false := ih hm'.2
          simp only [setHas] at hrest
          simp [hrest, beq_iff_eq]
          intro hc
          exact hm'.1 hc.symm

theorem filter_ne_of_not_mem (l : List HId) (w : HId) (hw : w ∉ l) :
    l.filter (fun x => x != w) = l := by
  induction l with
  | nil => rfl
  | cons x rest ih =>
      have hx : x ≠ w := by
        intro hc
        exact hw (by rw [← hc]; exact List.mem_cons_self _ _)
      have hr : w ∉ rest := fun hc => hw (List.mem_cons_of_mem _ hc)
      simp [List.filter_cons, bne_iff_ne, hx, ih hr]

theorem aliveFrom_setDelete (s : SetObj) (w : HId) (p : Nat) :
    aliveFrom (setDelete s w) p = (aliveFrom s p).filter (fun x => x != w) := by
  have hdrop : (setDelete s w).drop p = setDelete (s.drop p) w := by
    simp [setDelete, List.map_drop]
  show setElems ((setDelete s w).drop p) = (setElems (s.drop p)).filter (fun x => x != w)
  rw [hdrop, setElems_setDelete]

theorem ptr_lt_of_some (s : SetObj) (ptr : Nat) (en : Entry)
    (hget : s[ptr]? = some en) : ptr < s.length := by
  by_contra hc
  rw [List.getElem?_len_le (Nat.le_of_not_lt hc)] at hget
  cases hget

theorem aliveFrom_ne_nil_lt (s : SetObj) (ptr : Nat) (hne : aliveFrom s ptr ≠ []) :
    ptr < s.length := by
  by_contra hc
  exact hne (aliveFrom_len s ptr (Nat.le_of_not_lt hc))

theorem getD_mem_heap (l : List SetObj) (j : Nat) (hj : j < l.length) :
    l.getD j [] ∈ l := by
  rw [List.getD_eq_getElem?_getD, List.getElem?_eq_getElem hj]
  simp only [Option.getD_some]
  exact List.getElem_mem hj

theorem filter_throws_nil (behav : Behav) (l : List HId)
    (hl : ∀ h ∈ l, progThrows (behav h) = false) :
    l.filter (fun h => progThrows (behav h)) = [] := by
  induction l with
  | nil => rfl
  | cons x rest ih =>
      simp [List.filter_cons, hl x (List.mem_cons_self _ _),
        ih (fun z hz => hl z (List.mem_cons_of_mem _ hz))]

theorem setElems_append_alive (s : SetObj) (w : HId) :
    setElems (s ++ [Entry.mk w true]) = setElems s ++ [w] := by
  simp [setElems, List.filter_append]

/-- Emission over a static set of silent handlers, under either
`catchErrors` policy: every alive handler from `ptr` on runs, the loop
returns `true` and the whole frame — registry and diagnostic sink —
is untouched. -/
theorem emitIter_pure_silent (behav : Behav) (ce : Bool) (i : Nat) (s : SetObj)
    (hsil : ∀ h ∈ setElems s, progSilent (behav h) = true) :
    ∀ fuel ptr st, heapGet st i = s → ptr ≤ s.length → s.length + 1 ≤ fuel + ptr →
      ∃ st', emitIter behav ce i fuel ptr st = (aliveFrom s ptr, EmitResult.ret true, st')
        ∧ st'.heap = st.heap ∧ st'.listeners = st.listeners ∧ st'.options = st.options
        ∧ st'.sinkWarns = st.sinkWarns ∧ st'.sinkErrors = st.sinkErrors := by
  intro fuel ptr st hs hple hf
  have hpure : ∀ h ∈ setElems s, progPure (behav h) = true :=
    fun h hh => (progSilent_pure _ (hsil h hh)).1
  have hnothrow : ∀ h ∈ aliveFrom s ptr, progThrows (behav h) = false :=
    fun h hh => (progSilent_pure _ (hsil h (aliveFrom_subset s ptr h hh))).2
  cases ce with
  | true =>
      obtain ⟨st', heq, hh, hl, ho, hw, herr⟩ :=
        emitIter_pure_catch behav i s hpure fuel ptr st hs hple hf
      refine ⟨st', heq, hh, hl, ho, hw, ?_⟩
      rw [herr, filter_throws_nil behav _ hnothrow]
      simp
  | false =>
      obtain ⟨st', heq, hh, hl, ho, hw, herr⟩ :=
        emitIter_pure_nocatch behav i s hpure fuel ptr st hs hple hf
      have hany : (aliveFrom s ptr).any (fun h => progThrows (behav h)) = false := by
        rw [List.any_eq_false]
        intro h hh
        simp [hnothrow h hh]
      rw [ncTrace_no_throw behav _ hnothrow, hany] at heq
      refine ⟨st', ?_, hh, hl, ho, hw, herr⟩
      rw [heq]
      simp

/-- The `once`-wrapper emission loop: iterating a set whose alive
elements from `ptr` on split as silent handlers, then the wrapper `w`
— whose behaviour is the wrapper body of lines 151–154,
`this.off(event, wrapper)` first, then a silent underlying body — then
more silent handlers.  Every alive handler runs once in position
order; at `w`'s turn the `off` tombstones `w`'s own entry in the set
being iterated (and prunes the map entry if the set emptied) before
the underlying body runs, and the rest of the loop walks the
already-updated set, so `w` appears in the trace exactly once and is
unregistered in the final state. -/
theorem emitIter_once (behav : Behav) (ce : Bool) (i : Nat) (e : Event) (w : HId)
    (body : Prog) (s : SetObj) (post : List HId)
    (hbw : behav w = Action.actOff e w :: body)
    (hbody : progSilent body = true)
    (hsil : ∀ h ∈ setElems s, h ≠ w → progSilent (behav h) = true)
    (hwpost : w ∉ post) :
    ∀ fuel ptr st rpre,
      heapGet st i = s →
      mapGet st.listeners e = some i →
      i < st.heap.length →
      aliveFrom s ptr = rpre ++ w :: post →
      w ∉ rpre →
      s.length + 1 ≤ fuel + ptr →
      ∃ st', emitIter behav ce i fuel ptr st = (rpre ++ w :: post, EmitResult.ret true, st')
        ∧ heapGet st' i = setDelete s w
        ∧ st'.listeners = (if setSize (setDelete s w) = 0
            then mapDelete st.listeners e else st.listeners)
        ∧ st'.options = st.options ∧ st'.sinkWarns = st.sinkWarns
        ∧ st'.sinkErrors = st.sinkErrors := by
  intro fuel
  induction fuel with
  | zero =>
      intro ptr st rpre hs hm hlen hdec hwpre hf
      have hlt : ptr < s.length := aliveFrom_ne_nil_lt s ptr (by rw [hdec]; simp)
      omega
  | succ fuel ih =>
      intro ptr st rpre hs hm hlen hdec hwpre hf
      cases hget : s[ptr]? with
      | none =>
          have hge : s.length ≤ ptr := by
            by_contra hc
            rw [List.getElem?_eq_getElem (Nat.lt_of_not_le hc)] at hget
            cases hget
          rw [aliveFrom_len s ptr hge] at hdec
          simp at hdec
      | some en =>
          have hget' : (heapGet st i)[ptr]? = some en := by rw [hs]; exact hget
          have hlt : ptr < s.length := ptr_lt_of_some s ptr en hget
          have hstep := aliveFrom_step s ptr en hget
          cases ha : en.alive with
          | false =>
              simp only [ha, Bool.false_eq_true, if_false, List.nil_append] at hstep
              rw [emitIter_dead behav ce i fuel ptr st en hget' ha]
              exact ih (ptr + 1) st rpre hs hm hlen (by rw [← hstep]; exact hdec) hwpre
                (by omega)
          | true =>
              simp only [ha, if_true, List.singleton_append] at hstep
              cases rpre with
              | cons hh rpre' =>
                  rw [hstep, List.cons_append] at hdec
                  injection hdec with hhd htl
                  have hhm : en.hid ∈ setElems s :=
                    aliveFrom_subset s ptr en.hid
                      (by rw [hstep]; exact List.mem_cons_self _ _)
                  have hhw : en.hid ≠ w := by
                    intro hc
                    exact hwpre (by rw [← hhd, hc]; exact List.mem_cons_self _ _)
                  obtain ⟨hpureh, hthh⟩ := progSilent_pure _ (hsil en.hid hhm hhw)
                  have hfr := runProg_pure_frame (behav en.hid) hpureh st
                  have hfst : (runProg (behav en.hid) st).1 = false := by
                    rw [runProg_fst]; exact hthh
                  have hrun : runProg (behav en.hid) st
                      = (false, (runProg (behav en.hid) st).2) := by
                    rw [← hfst]
                  rw [emitIter_alive behav ce i fuel ptr st
                    ((runProg (behav en.hid) st).2) en hget' ha hrun]
                  obtain ⟨st', hiter, hsp, hlst, hopt, hwrn, herr⟩ :=
                    ih (ptr + 1) ((runProg (behav en.hid) st).2) rpre'
                      ((heapGet_congr st ((runProg (behav en.hid) st).2) i hfr.1).trans hs)
                      (by rw [hfr.2.1]; exact hm)
                      (by rw [hfr.1]; exact hlen)
                      htl
                      (fun hc => hwpre (List.mem_cons_of_mem _ hc))
                      (by omega)
                  refine ⟨st', ?_, hsp, ?_, ?_, ?_, ?_⟩
                  · rw [hiter, hhd, List.cons_append]
                  · rw [hlst, hfr.2.1]
                  · rw [hopt, hfr.2.2.1]
                  · rw [hwrn, hfr.2.2.2.1]
                  · rw [herr, hfr.2.2.2.2]
              | nil =>
                  rw [hstep] at hdec
                  simp only [List.nil_append] at hdec
                  injection hdec with hhd htl
                  obtain ⟨hpureb, hthb⟩ := progSilent_pure body hbody
                  have hoffheap : (st.off e w).heap = st.heap.set i (setDelete s w) := by
                    by_cases hz : setSize (setDelete s w) = 0 <;>
                      simp [EventSystem.off, hm, hs, hz, heapPut]
                  have hofflist : (st.off e w).listeners
                      = (if setSize (setDelete s w) = 0
                         then mapDelete st.listeners e else st.listeners) := by
                    by_cases hz : setSize (setDelete s w) = 0 <;>
                      simp [EventSystem.off, hm, hs, hz, heapPut]
                  have hoffopt : (st.off e w).options = st.options := by
                    by_cases hz : setSize (setDelete s w) = 0 <;>
                      simp [EventSystem.off, hm, hs, hz, heapPut]
                  have hoffwrn : (st.off e w).sinkWarns = st.sinkWarns := by
                    by_cases hz : setSize (setDelete s w) = 0 <;>
                      simp [EventSystem.off, hm, hs, hz, heapPut]
                  have hofferr : (st.off e w).sinkErrors = st.sinkErrors := by
                    by_cases hz : setSize (setDelete s w) = 0 <;>
                      simp [EventSystem.off, hm, hs, hz, heapPut]
                  have hfrb := runProg_pure_frame body hpureb (st.off e w)
                  have hfstb : (runProg body (st.off e w)).1 = false := by
                    rw [runProg_fst]; exact hthb
                  have hrun : runProg (behav en.hid) st
                      = (false, (runProg body (st.off e w)).2) := by
                    rw [hhd, hbw]
                    show runProg body (st.off e w) = _
                    rw [← hfstb]
                  have hs2 : heapGet ((runProg body (st.off e w)).2) i = setDelete s w := by
                    rw [heapGet_congr (st.off e w) ((runProg body (st.off e w)).2) i hfrb.1]
                    show ((st.off e w).heap).getD i [] = setDelete s w
                    rw [hoffheap]
                    exact getD_set_self st.heap i (setDelete s w) hlen
                  have hsil' : ∀ h ∈ setElems (setDelete s w),
                      progSilent (behav h) = true := by
                    intro h hh
                    rw [setElems_setDelete] at hh
                    have hmf := List.mem_filter.1 hh
                    exact hsil h hmf.1 (by simpa using hmf.2)
                  obtain ⟨st', hiter, hh2, hl2, ho2, hw2, he2⟩ :=
                    emitIter_pure_silent behav ce i (setDelete s w) hsil' fuel (ptr + 1)
                      ((runProg body (st.off e w)).2) hs2
                      (by rw [length_setDelete]; omega)
                      (by rw [length_setDelete]; omega)
                  have htr : aliveFrom (setDelete s w) (ptr + 1) = post := by
                    rw [aliveFrom_setDelete, htl, filter_ne_of_not_mem post w hwpost]
                  rw [emitIter_alive behav ce i fuel ptr st
                    ((runProg body (st.off e w)).2) en hget' ha hrun]
                  refine ⟨st', ?_, ?_, ?_, ?_, ?_, ?_⟩
                  · rw [hiter, htr, hhd]
                    simp
                  · rw [heapGet_congr ((runProg body (st.off e w)).2) st' i hh2]
                    exact hs2
                  · rw [hl2, hfrb.2.1, hofflist]
                  · rw [ho2, hfrb.2.2.1, hoffopt]
                  · rw [hw2, hfrb.2.2.2.1, hoffwrn]
                  · rw [he2, hfrb.2.2.2.2, hofferr]

/-- The state `once` (which registers through `on`, line 156) produces
on a well-formed bus where the wrapper id is fresh for its event: the
event maps to a set whose alive elements are the previously registered
handlers with the wrapper appended, and whose entry list is one longer
than before (one entry when the event was new). -/
theorem once_shape (st0 : EventSystem) (e : Event) (w : HId)
    (hinv : ESInv st0) (hfresh : w ∉ elemsAt st0 e) :
    ∃ i, mapGet (st0.once e w).listeners e = some i
      ∧ i < (st0.once e w).heap.length
      ∧ setElems (heapGet (st0.once e w) i) = elemsAt st0 e ++ [w]
      ∧ ((heapGet (st0.once e w) i).length = 1
         ∨ ∃ s0 ∈ st0.heap, (heapGet (st0.once e w) i).length = s0.length + 1) := by
  cases hm0 : mapGet st0.listeners e with
  | some j =>
      have hj : (e, j) ∈ st0.listeners := mapGet_mem _ _ _ hm0
      have hjlen : j < st0.heap.length := (hinv.1 (e, j) hj).2
      have hw0 : w ∉ setElems (heapGet st0 j) := by
        simpa [elemsAt, hm0] using hfresh
      have hhas : setHas (heapGet st0 j) w = false := setHas_false_of_not_mem _ _ hw0
      have hadd : setAdd (heapGet st0 j) w = heapGet st0 j ++ [Entry.mk w true] := by
        simp [setAdd, hhas]
      obtain ⟨x, hx⟩ := on_some_shape st0 e w j hm0
      refine ⟨j, ?_, ?_, ?_, ?_⟩
      · show mapGet (st0.on e w).listeners e = some j
        rw [hx]
        exact hm0
      · show j < (st0.on e w).heap.length
        rw [hx]
        simpa using hjlen
      · show setElems (heapGet (st0.on e w) j) = elemsAt st0 e ++ [w]
        rw [hx]
        show setElems ((st0.heap.set j (setAdd (heapGet st0 j) w)).getD j [])
          = elemsAt st0 e ++ [w]
        rw [getD_set_self st0.heap j _ hjlen, hadd, setElems_append_alive]
        congr 1
        simp [elemsAt, hm0]
      · right
        refine ⟨heapGet st0 j, getD_mem_heap st0.heap j hjlen, ?_⟩
        show (heapGet (st0.on e w) j).length = (heapGet st0 j).length + 1
        rw [hx]
        show ((st0.heap.set j (setAdd (heapGet st0 j) w)).getD j []).length
          = (heapGet st0 j).length + 1
        rw [getD_set_self st0.heap j _ hjlen, hadd]
        simp
  | none =>
      obtain ⟨x, hx⟩ := on_none_shape st0 e w hm0
      refine ⟨st0.heap.length, ?_, ?_, ?_, ?_⟩
      · show mapGet (st0.on e w).listeners e = some st0.heap.length
        rw [hx]
        exact mapGet_mapSet_self st0.listeners e st0.heap.length
      · show st0.heap.length < (st0.on e w).heap.length
        rw [hx]
        simp
      · show setElems (heapGet (st0.on e w) st0.heap.length) = elemsAt st0 e ++ [w]
        rw [hx]
        show setElems ((st0.heap ++ [[Entry.mk w true]]).getD st0.heap.length [])
          = elemsAt st0 e ++ [w]
        rw [getD_append_length st0.heap [Entry.mk w true]]
        simp [setElems, elemsAt, hm0]
      · left
        show (heapGet (st0.on e w) st0.heap.length).length = 1
        rw [hx]
        show ((st0.heap ++ [[Entry.mk w true]]).getD st0.heap.length []).length = 1
        rw [getD_append_length st0.heap [Entry.mk w true]]
        rfl

/-- One steady-state emission after the wrapper is gone: the event's
set (if the registry still holds it) contains only silent handlers and
not `w`, so the emission never invokes `w` and preserves the set and
the map entry exactly. -/
theorem once_emit_pres (behav : Behav) (e : Event) (w : HId) (i : Nat) (s' : SetObj)
    (fuel : Nat)
    (hsil : ∀ h ∈ setElems s', progSilent (behav h) = true)
    (hw : w ∉ setElems s')
    (hfuel : s'.length + 1 ≤ fuel) (st : EventSystem)
    (hs : heapGet st i = s')
    (hm : mapGet st.listeners e = (if setSize s' = 0 then none else some i)) :
    w ∉ (EventSystem.emit behav fuel st e).1
    ∧ heapGet (EventSystem.emit behav fuel st e).2.2 i = s'
    ∧ mapGet (EventSystem.emit behav fuel st e).2.2.listeners e
        = (if setSize s' = 0 then none else some i) := by
  by_cases hz : setSize s' = 0
  · rw [if_pos hz] at hm
    cases hwn : st.options.warnOnNoListeners with
    | true =>
        have hemit : EventSystem.emit behav fuel st e
            = ([], EmitResult.ret false, sinkWarn st) := by
          simp [EventSystem.emit, hm, hwn]
        rw [hemit]
        exact ⟨by simp, hs, by rw [if_pos hz]; exact hm⟩
    | false =>
        have hemit : EventSystem.emit behav fuel st e = ([], EmitResult.ret false, st) := by
          simp [EventSystem.emit, hm, hwn]
        rw [hemit]
        exact ⟨by simp, hs, by rw [if_pos hz]; exact hm⟩
  · rw [if_neg hz] at hm
    have hsz : setSize (heapGet st i) ≠ 0 := by rw [hs]; exact hz
    obtain ⟨st', hiter, hh, hl, ho, hwn, herr⟩ :=
      emitIter_pure_silent behav st.options.catchErrors i s' hsil fuel 0 st hs
        (by omega) (by omega)
    have hemit : EventSystem.emit behav fuel st e
        = (aliveFrom s' 0, EmitResult.ret true, st') := by
      rw [emit_some behav fuel st e i hm hsz]
      exact hiter
    rw [hemit]
    refine ⟨?_, ?_, ?_⟩
    · show w ∉ aliveFrom s' 0
      rw [aliveFrom_zero]
      exact hw
    · show heapGet st' i = s'
      rw [heapGet_congr st st' i hh]
      exact hs
    · show mapGet st'.listeners e = _
      rw [if_neg hz, hl]
      exact hm

/-- The steady state persists over any number of further emissions. -/
theorem once_times_inv (behav : Behav) (e : Event) (w : HId) (i : Nat) (s' : SetObj)
    (fuel : Nat)
    (hsil : ∀ h ∈ setElems s', progSilent (behav h) = true)
    (hw : w ∉ setElems s')
    (hfuel : s'.length + 1 ≤ fuel) :
    ∀ (n : Nat) (st : EventSystem), heapGet st i = s' →
      mapGet st.listeners e = (if setSize s' = 0 then none else some i) →
      heapGet (emitTimes behav fuel e n st) i = s'
      ∧ mapGet (emitTimes behav fuel e n st).listeners e
          = (if setSize s' = 0 then none else some i) := by
  intro n
  induction n with
  | zero => intro st hs hm; exact ⟨hs, hm⟩
  | succ n ih =>
      intro st hs hm
      obtain ⟨_, h2, h3⟩ := once_emit_pres behav e w i s' fuel hsil hw hfuel st hs hm
      exact ih ((EventSystem.emit behav fuel st e).2.2) h2 h3

/-- Once the wrapper is gone, no later emission of the event ever
invokes it again. -/
theorem once_tail (behav : Behav) (e : Event) (w : HId) (i : Nat) (s' : SetObj) (fuel : Nat)
    (hsil : ∀ h ∈ setElems s', progSilent (behav h) = true)
    (hw : w ∉ setElems s')
    (hfuel : s'.length + 1 ≤ fuel)
    (st : EventSystem) (hs : heapGet st i = s')
    (hm : mapGet st.listeners e = (if setSize s' = 0 then none else some i)) :
    ∀ n : Nat, w ∉ (EventSystem.emit behav fuel (emitTimes behav fuel e n st) e).1 := by
  intro n
  obtain ⟨h1, h2⟩ := once_times_inv behav e w i s' fuel hsil hw hfuel n st hs hm
  exact (once_emit_pres behav e w i s' fuel hsil hw hfuel _ h1 h2).1

/-- C5, universally over every `once` registration: on any well-formed
bus `st0`, for any event `e` and fresh wrapper id `w` whose behaviour
is the wrapper body of lines 151–154 (`this.off(event, wrapper)`
first, then a silent underlying body), with the event's previously
registered handlers silent and enough fuel for the loop: the first
emission after `once e w` invokes every previous handler and the
wrapper — the wrapper exactly once (its count in the trace is 1) —
and returns normally; afterwards `listenerCount e` has dropped by
exactly one and the registry holds exactly the previous handlers
again; for every `n`, the emission following `n` further emissions
never invokes `w` (the `once` handler fires at most once no matter how
many further emits occur); and the unsubscriber `once` returns
(`() => off(event, wrapper)`, line 119 via 156) removes the wrapper
pre-emptively: the count drops by one, the previous handlers survive,
and no later emission ever invokes `w`. -/
theorem C5_once_single_fire (st0 : EventSystem) (e : Event) (w : HId) (body : Prog)
    (behav : Behav) (fuel : Nat)
    (hinv : ESInv st0)
    (hfresh : w ∉ elemsAt st0 e)
    (hbw : behav w = Action.actOff e w :: body)
    (hbody : progSilent body = true)
    (hsil : ∀ h ∈ elemsAt st0 e, progSilent (behav h) = true)
    (hfuel : ∀ s0 ∈ st0.heap, s0.length + 2 ≤ fuel)
    (hfuel2 : 2 ≤ fuel) :
    ((EventSystem.emit behav fuel (st0.once e w) e).1 = elemsAt st0 e ++ [w]
      ∧ (EventSystem.emit behav fuel (st0.once e w) e).2.1 = EmitResult.ret true
      ∧ ((EventSystem.emit behav fuel (st0.once e w) e).1).count w = 1)
    ∧ ((EventSystem.emit behav fuel (st0.once e w) e).2.2.listenerCount e
          = (st0.once e w).listenerCount e - 1
      ∧ elemsAt (EventSystem.emit behav fuel (st0.once e w) e).2.2 e = elemsAt st0 e)
    ∧ (∀ n : Nat, w ∉ (EventSystem.emit behav fuel
          (emitTimes behav fuel e n (EventSystem.emit behav fuel (st0.once e w) e).2.2)
          e).1)
    ∧ (((st0.once e w).off e w).listenerCount e = (st0.once e w).listenerCount e - 1
      ∧ elemsAt ((st0.once e w).off e w) e = elemsAt st0 e
      ∧ ∀ n : Nat, w ∉ (EventSystem.emit behav fuel
          (emitTimes behav fuel e n ((st0.once e w).off e w)) e).1) := by
  obtain ⟨i, hm, hlen, helems, hlrel⟩ := once_shape st0 e w hinv hfresh
  have hslen : (heapGet (st0.once e w) i).length + 1 ≤ fuel := by
    rcases hlrel with h1 | ⟨s0, hs0, h1⟩
    · omega
    · have := hfuel s0 hs0
      omega
  have hsz : setSize (heapGet (st0.once e w) i) ≠ 0 := by
    rw [setSize_eq_elems, helems]
    simp
  have hsil_s : ∀ h ∈ setElems (heapGet (st0.once e w) i), h ≠ w →
      progSilent (behav h) = true := by
    intro h hh hne
    rw [helems] at hh
    rcases List.mem_append.1 hh with h0 | h1
    · exact hsil h h0
    · simp at h1
      exact absurd h1 hne
  have hdec : aliveFrom (heapGet (st0.once e w) i) 0 = elemsAt st0 e ++ w :: [] := by
    rw [aliveFrom_zero, helems]
  obtain ⟨st', hiter, hsp, hlst, hopt, hwrn, herr⟩ :=
    emitIter_once behav (st0.once e w).options.catchErrors i e w body
      (heapGet (st0.once e w) i) [] hbw hbody hsil_s (List.not_mem_nil w)
      fuel 0 (st0.once e w) (elemsAt st0 e) rfl hm hlen hdec hfresh (by omega)
  have hemit : EventSystem.emit behav fuel (st0.once e w) e
      = (elemsAt st0 e ++ w :: [], EmitResult.ret true, st') := by
    rw [emit_some behav fuel (st0.once e w) e i hm hsz]
    exact hiter
  have hs'elems : setElems (setDelete (heapGet (st0.once e w) i) w) = elemsAt st0 e := by
    rw [setElems_setDelete, helems, List.filter_append,
      filter_ne_of_not_mem (elemsAt st0 e) w hfresh]
    simp
  have hs'sil : ∀ h ∈ setElems (setDelete (heapGet (st0.once e w) i) w),
      progSilent (behav h) = true := by
    rw [hs'elems]; exact hsil
  have hs'w : w ∉ setElems (setDelete (heapGet (st0.once e w) i) w) := by
    rw [hs'elems]; exact hfresh
  have hs'fuel : (setDelete (heapGet (st0.once e w) i) w).length + 1 ≤ fuel := by
    rw [length_setDelete]
    omega
  have hcount0 : (st0.once e w).listenerCount e = (elemsAt st0 e).length + 1 := by
    rw [EventSystem.listenerCount, hm]
    show setSize (heapGet (st0.once e w) i) = (elemsAt st0 e).length + 1
    rw [setSize_eq_elems, helems]
    simp
  have hmapst' : mapGet st'.listeners e
      = (if setSize (setDelete (heapGet (st0.once e w) i) w) = 0
         then none else some i) := by
    rw [hlst]
    by_cases hz : setSize (setDelete (heapGet (st0.once e w) i) w) = 0
    · rw [if_pos hz, if_pos hz]
      exact mapGet_mapDelete_self _ _
    · rw [if_neg hz, if_neg hz]
      exact hm
  have hcount1 : st'.listenerCount e = (elemsAt st0 e).length := by
    rw [EventSystem.listenerCount, hmapst']
    by_cases hz : setSize (setDelete (heapGet (st0.once e w) i) w) = 0
    · rw [if_pos hz]
      have hlz : (elemsAt st0 e).length = 0 := by
        rw [← hs'elems, ← setSize_eq_elems]
        exact hz
      exact hlz.symm
    · rw [if_neg hz]
      show setSize (heapGet st' i) = (elemsAt st0 e).length
      rw [hsp, setSize_eq_elems, hs'elems]
  have helems1 : elemsAt st' e = elemsAt st0 e := by
    rw [elemsAt, hmapst']
    by_cases hz : setSize (setDelete (heapGet (st0.once e w) i) w) = 0
    · rw [if_pos hz]
      have hlz : (elemsAt st0 e).length = 0 := by
        rw [← hs'elems, ← setSize_eq_elems]
        exact hz
      exact (List.length_eq_zero.1 hlz).symm
    · rw [if_neg hz]
      show setElems (heapGet st' i) = elemsAt st0 e
      rw [hsp]
      exact hs'elems
  have hoffheap : heapGet ((st0.once e w).off e w) i
      = setDelete (heapGet (st0.once e w) i) w := by
    have hh : ((st0.once e w).off e w).heap
        = (st0.once e w).heap.set i (setDelete (heapGet (st0.once e w) i) w) := by
      by_cases hz : setSize (setDelete (heapGet (st0.once e w) i) w) = 0 <;>
        simp [EventSystem.off, hm, hz, heapPut]
    show (((st0.once e w).off e w).heap).getD i [] = _
    rw [hh]
    exact getD_set_self (st0.once e w).heap i _ hlen
  have hofflist : mapGet ((st0.once e w).off e w).listeners e
      = (if setSize (setDelete (heapGet (st0.once e w) i) w) = 0
         then none else some i) := by
    by_cases hz : setSize (setDelete (heapGet (st0.once e w) i) w) = 0
    · rw [if_pos hz]
      have hl : ((st0.once e w).off e w).listeners
          = mapDelete (st0.once e w).listeners e := by
        simp [EventSystem.off, hm, hz, heapPut]
      rw [hl]
      exact mapGet_mapDelete_self _ _
    · rw [if_neg hz]
      have hl : ((st0.once e w).off e w).listeners = (st0.once e w).listeners := by
        simp [EventSystem.off, hm, hz, heapPut]
      rw [hl]
      exact hm
  have hoffcount : ((st0.once e w).off e w).listenerCount e = (elemsAt st0 e).length := by
    rw [EventSystem.listenerCount, hofflist]
    by_cases hz : setSize (setDelete (heapGet (st0.once e w) i) w) = 0
    · rw [if_pos hz]
      have hlz : (elemsAt st0 e).length = 0 := by
        rw [← hs'elems, ← setSize_eq_elems]
        exact hz
      exact hlz.symm
    · rw [if_neg hz]
      show setSize (heapGet ((st0.once e w).off e w) i) = (elemsAt st0 e).length
      rw [hoffheap, setSize_eq_elems, hs'elems]
  have hoffelems : elemsAt ((st0.once e w).off e w) e = elemsAt st0 e := by
    rw [elemsAt, hofflist]
    by_cases hz : setSize (setDelete (heapGet (st0.once e w) i) w) = 0
    · rw [if_pos hz]
      have hlz : (elemsAt st0 e).length = 0 := by
        rw [← hs'elems, ← setSize_eq_elems]
        exact hz
      exact (List.length_eq_zero.1 hlz).symm
    · rw [if_neg hz]
      show setElems (heapGet ((st0.once e w).off e w) i) = elemsAt st0 e
      rw [hoffheap]
      exact hs'elems
  refine ⟨⟨?_, ?_, ?_⟩, ⟨?_, ?_⟩, ?_, ⟨?_, ?_, ?_⟩⟩
  · rw [hemit]
  · rw [hemit]
  · rw [hemit]
    show (elemsAt st0 e ++ w :: []).count w = 1
    rw [List.count_append, List.count_eq_zero.2 hfresh]
    simp
  · rw [hemit]
    show st'.listenerCount e = (st0.once e w).listenerCount e - 1
    rw [hcount1, hcount0]
    omega
  · rw [hemit]
    show elemsAt st' e = elemsAt st0 e
    exact helems1
  · intro n
    rw [hemit]
    show w ∉ (EventSystem.emit behav fuel (emitTimes behav fuel e n st') e).1
    exact once_tail behav e w i (setDelete (heapGet (st0.once e w) i) w) fuel
      hs'sil hs'w hs'fuel st' hsp hmapst' n
  · rw [hoffcount, hcount0]
    omega
  · exact hoffelems
  · intro n
    exact once_tail behav e w i (setDelete (heapGet (st0.once e w) i) w) fuel
      hs'sil hs'w hs'fuel ((st0.once e w).off e w) hoffheap hofflist n

/-- C5 witness: the universal `once` theorem on the concrete bus with
silent handler 1 (`on`) and wrapper 2 (`once`, underlying body `incr`)
for event 0 — the first emission invokes `[1, 2]` with the wrapper
exactly once, the count drops by one and handler 1 alone remains, no
further emission ever invokes the wrapper, and the returned
unsubscriber removes it pre-emptively. -/
theorem C5_once_witness :
    ((EventSystem.emit behavC5 10
          (((EventSystem.new defaultOptions).on 0 1).once 0 2) 0).1
        = elemsAt ((EventSystem.new defaultOptions).on 0 1) 0 ++ [2]
      ∧ (EventSystem.emit behavC5 10
          (((EventSystem.new defaultOptions).on 0 1).once 0 2) 0).2.1
        = EmitResult.ret true
      ∧ ((EventSystem.emit behavC5 10
          (((EventSystem.new defaultOptions).on 0 1).once 0 2) 0).1).count 2 = 1)
    ∧ ((EventSystem.emit behavC5 10
          (((EventSystem.new defaultOptions).on 0 1).once 0 2) 0).2.2.listenerCount 0
          = (((EventSystem.new defaultOptions).on 0 1).once 0 2).listenerCount 0 - 1
      ∧ elemsAt (EventSystem.emit behavC5 10
          (((EventSystem.new defaultOptions).on 0 1).once 0 2) 0).2.2 0
        = elemsAt ((EventSystem.new defaultOptions).on 0 1) 0)
    ∧ (∀ n : Nat, 2 ∉ (EventSystem.emit behavC5 10
          (emitTimes behavC5 10 0 n (EventSystem.emit behavC5 10
            (((EventSystem.new defaultOptions).on 0 1).once 0 2) 0).2.2) 0).1)
    ∧ (((((EventSystem.new defaultOptions).on 0 1).once 0 2).off 0 2).listenerCount 0
          = (((EventSystem.new defaultOptions).on 0 1).once 0 2).listenerCount 0 - 1
      ∧ elemsAt ((((EventSystem.new defaultOptions).on 0 1).once 0 2).off 0 2) 0
        = elemsAt ((EventSystem.new defaultOptions).on 0 1) 0
      ∧ ∀ n : Nat, 2 ∉ (EventSystem.emit behavC5 10
          (emitTimes behavC5 10 0 n
            ((((EventSystem.new defaultOptions).on 0 1).once 0 2).off 0 2)) 0).1) :=
  C5_once_single_fire ((EventSystem.new defaultOptions).on 0 1) 0 2 [Action.incr]
    behavC5 10 (by decide) (by decide) (by decide) (by decide) (by decide)
    (by decide) (by decide)

end Tico
